import Mathlib

/-!
Verification development for the Data-Sculptor real-time diagnostics pipeline.

The definitions below are a shallow embedding of
`src/services/backend/real_time_analysis_microservice/main.py` (class
`RealTimeAnalysis`, the deployed microservice), of the older variant
`src/services/backend/lsp_server/RT_linter.py` where the two differ, of the
pylint adapter in
`src/services/backend/syntactic_analyzis_microservice/analysis_runner.py`,
and of the JSON / LSP `Content-Length` framing those files use via
`json.dumps` / `json.loads` and pipe reads.

Byte streams are modelled as `List Char`.  This identification is sound for
the framed traffic of this service because `json.dumps` runs with its default
`ensure_ascii=True`, so every body byte is an ASCII character (the lemma
`dumpsV_ascii` below proves this for the model), and the header is ASCII by
construction; hence byte counts and character counts agree.
-/

set_option maxHeartbeats 4000000
set_option maxRecDepth 4000

namespace DataSculptor

/-! ## Character helpers (models of the Python `str`/`bytes` primitives used) -/

/-- Model of Python's decimal digit test used by `str.isdigit` on ASCII input. -/
def isDigitC (c : Char) : Bool := 48 ≤ c.toNat && c.toNat ≤ 57

/-- Whitespace recognised by `str.strip()` (ASCII subset actually occurring here). -/
def isPyWs (c : Char) : Bool :=
  c = ' ' || c = '\t' || c = '\n' || c = '\r' || c.toNat = 11 || c.toNat = 12

/-- Whitespace skipped by the JSON grammar (`json.loads`). -/
def isJsonWs (c : Char) : Bool := c = ' ' || c = '\t' || c = '\n' || c = '\r'

/-- Model of `str.strip()`: drop whitespace from both ends. -/
def pyStrip (s : List Char) : List Char :=
  ((s.dropWhile isPyWs).reverse.dropWhile isPyWs).reverse

/-- Model of `str.lower()` on one character (ASCII case fold, as in the header test). -/
def lowerC (c : Char) : Char :=
  if 65 ≤ c.toNat ∧ c.toNat ≤ 90 then Char.ofNat (c.toNat + 32) else c

/-- Model of `str.lower()`. -/
def lowerList (s : List Char) : List Char := s.map lowerC

/-- Decimal digit character: `digitChar k` is the character for digit `k < 10`. -/
def digitChar (k : Nat) : Char := Char.ofNat (48 + k)

/-- Lowercase hexadecimal digit character for `k < 16` (as emitted by `json.dumps`). -/
def hexChar (k : Nat) : Char :=
  if k < 10 then Char.ofNat (48 + k) else Char.ofNat (97 + (k - 10))

/-- Numeric value of a hexadecimal digit character, accepting both cases
(as `json.loads` does for `\uXXXX` escapes). -/
def hexVal (c : Char) : Option Nat :=
  if 48 ≤ c.toNat ∧ c.toNat ≤ 57 then some (c.toNat - 48)
  else if 97 ≤ c.toNat ∧ c.toNat ≤ 102 then some (c.toNat - 87)
  else if 65 ≤ c.toNat ∧ c.toNat ≤ 70 then some (c.toNat - 55)
  else none

/-- Four lowercase hex digits of `n % 0x10000`, most significant first. -/
def toHex4 (n : Nat) : List Char :=
  [hexChar (n / 4096 % 16), hexChar (n / 256 % 16), hexChar (n / 16 % 16), hexChar (n % 16)]

/-- Fuelled decimal rendering of a natural number, `fuel > n` suffices. -/
def natDigitsF : Nat → Nat → List Char
  | 0, _ => []
  | fuel + 1, n =>
    if n < 10 then [digitChar n] else natDigitsF fuel (n / 10) ++ [digitChar (n % 10)]

/-- Model of Python's `str(n)` for `n : Nat`: decimal digits, no sign, no leading zero. -/
def natDigits (n : Nat) : List Char := natDigitsF (n + 1) n

/-- Value of a list of decimal digit characters, most significant first. -/
def digitsToNat (l : List Char) : Nat :=
  l.foldl (fun acc c => acc * 10 + (c.toNat - 48)) 0

/-! ## Facts about the decimal rendering -/

theorem natDigitsF_fuel_irrel (fuel fuel' n : Nat) (h : n < fuel) (h' : n < fuel') :
    natDigitsF fuel n = natDigitsF fuel' n := by
  induction fuel generalizing fuel' n with
  | zero => omega
  | succ fuel ih =>
    match fuel', h' with
    | fuel' + 1, h' =>
    rw [natDigitsF, natDigitsF]
    by_cases h10 : n < 10
    · simp [h10]
    · have hd : n / 10 < n := Nat.div_lt_self (by omega) (by omega)
      simp only [if_neg h10]
      rw [ih fuel' (n / 10) (by omega) (by omega)]

theorem natDigits_eq (n : Nat) :
    natDigits n = if n < 10 then [digitChar n] else natDigits (n / 10) ++ [digitChar (n % 10)] := by
  rw [natDigits, natDigitsF]
  by_cases h10 : n < 10
  · simp [h10]
  · have hd : n / 10 < n := Nat.div_lt_self (by omega) (by omega)
    simp only [if_neg h10]
    rw [natDigitsF_fuel_irrel n (n / 10 + 1) (n / 10) (by omega) (by omega)]
    rfl

theorem natDigits_ne_nil (n : Nat) : natDigits n ≠ [] := by
  rw [natDigits_eq]
  split <;> simp

theorem digitChar_toNat (k : Nat) (h : k < 10) : (digitChar k).toNat = 48 + k := by
  interval_cases k <;> decide

theorem isDigitC_digitChar (k : Nat) (h : k < 10) : isDigitC (digitChar k) = true := by
  interval_cases k <;> decide

theorem natDigits_all_digits (n : Nat) : (natDigits n).all isDigitC = true := by
  induction n using Nat.strong_induction_on with
  | _ n ih =>
  rw [natDigits_eq]
  by_cases h : n < 10
  · simp [h, isDigitC_digitChar n h]
  · simp only [if_neg h, List.all_append, Bool.and_eq_true]
    exact ⟨ih (n / 10) (by omega), by simp [isDigitC_digitChar (n % 10) (by omega)]⟩

theorem digitsToNat_append_digit (l : List Char) (c : Char) :
    digitsToNat (l ++ [c]) = digitsToNat l * 10 + (c.toNat - 48) := by
  simp [digitsToNat, List.foldl_append]

theorem digitsToNat_natDigits (n : Nat) : digitsToNat (natDigits n) = n := by
  induction n using Nat.strong_induction_on with
  | _ n ih =>
  rw [natDigits_eq]
  by_cases h : n < 10
  · simp [h, digitsToNat, digitChar_toNat n h]
  · simp only [if_neg h]
    rw [digitsToNat_append_digit, ih (n / 10) (by omega), digitChar_toNat (n % 10) (by omega)]
    omega

theorem natDigits_head_ne_zero (n : Nat) (hn : 0 < n) :
    (natDigits n).head? ≠ some '0' := by
  induction n using Nat.strong_induction_on with
  | _ n ih =>
  rw [natDigits_eq]
  by_cases h : n < 10
  · simp only [if_pos h, List.head?_cons]
    interval_cases n <;> decide
  · simp only [if_neg h]
    rw [List.head?_append_of_ne_nil _ (natDigits_ne_nil (n / 10))]
    exact ih (n / 10) (by omega) (by omega)

/-! ## JSON values

Model of the JSON data handled by the service's messages: objects, arrays,
strings, integers, booleans and null.  This is the subset produced and
consumed by the JSON-RPC traffic of `RealTimeAnalysis` (floats do not occur
in it).  Object fields keep insertion order, as Python `dict` does. -/

inductive J where
  | null : J
  | boolean : Bool → J
  | num : Int → J
  | str : List Char → J
  | arr : List J → J
  | obj : List (List Char × J) → J

/-- Escape of one character in a JSON string as performed by `json.dumps` with
its default `ensure_ascii=True`: the two-character shortcuts for `"`:, `\`,
and the control characters with names, `\uXXXX` for other control and all
non-ASCII characters, and a UTF-16 surrogate pair for characters beyond
the basic multilingual plane. -/
def escapeChar (c : Char) : List Char :=
  if c = '"' then ['\\', '"']
  else if c = '\\' then ['\\', '\\']
  else if c = '\n' then ['\\', 'n']
  else if c = '\t' then ['\\', 't']
  else if c = '\r' then ['\\', 'r']
  else if c.toNat = 8 then ['\\', 'b']
  else if c.toNat = 12 then ['\\', 'f']
  else if c.toNat < 32 then '\\' :: 'u' :: toHex4 c.toNat
  else if c.toNat ≤ 126 then [c]
  else if c.toNat ≤ 65535 then '\\' :: 'u' :: toHex4 c.toNat
  else
    ('\\' :: 'u' :: toHex4 (55296 + (c.toNat - 65536) / 1024)) ++
      ('\\' :: 'u' :: toHex4 (56320 + (c.toNat - 65536) % 1024))

/-- Escape of a whole JSON string body. -/
def escapeString : List Char → List Char
  | [] => []
  | c :: cs => escapeChar c ++ escapeString cs

mutual

/-- Model of `json.dumps(v)` with the library defaults used by the service:
`ensure_ascii=True` and separators `", "` and `": "`. -/
def dumpsV : J → List Char
  | .null => 'n' :: 'u' :: 'l' :: 'l' :: []
  | .boolean true => 't' :: 'r' :: 'u' :: 'e' :: []
  | .boolean false => 'f' :: 'a' :: 'l' :: 's' :: 'e' :: []
  | .num n => if n < 0 then '-' :: natDigits n.natAbs else natDigits n.natAbs
  | .str s => '"' :: escapeString s ++ ['"']
  | .arr xs => '[' :: dumpsElems xs ++ [']']
  | .obj fs => Char.ofNat 123 :: dumpsFields fs ++ [Char.ofNat 125]

/-- Array elements rendered with the default `", "` separator. -/
def dumpsElems : List J → List Char
  | [] => []
  | [x] => dumpsV x
  | x :: y :: xs => dumpsV x ++ ',' :: ' ' :: dumpsElems (y :: xs)

/-- Object fields rendered with the default `", "` and `": "` separators. -/
def dumpsFields : List (List Char × J) → List Char
  | [] => []
  | [(k, v)] => '"' :: escapeString k ++ '"' :: ':' :: ' ' :: dumpsV v
  | (k, v) :: f :: fs =>
    ('"' :: escapeString k ++ '"' :: ':' :: ' ' :: dumpsV v) ++ ',' :: ' ' :: dumpsFields (f :: fs)

end

/-! ## JSON parsing (model of `json.loads` on the integer subset) -/

/-- Whitespace skipped between JSON tokens. -/
def skipWs (s : List Char) : List Char := s.dropWhile isJsonWs

/-- Value of the single-character escapes accepted after a backslash by
`json.loads`. -/
def escCode (e : Char) : Option Char :=
  if e = '"' then some '"'
  else if e = '\\' then some '\\'
  else if e = '/' then some '/'
  else if e = 'b' then some (Char.ofNat 8)
  else if e = 'f' then some (Char.ofNat 12)
  else if e = 'n' then some '\n'
  else if e = 'r' then some '\r'
  else if e = 't' then some '\t'
  else none

/-- Value of four hexadecimal digit characters. -/
def hex4 (h1 h2 h3 h4 : Char) : Option Nat :=
  match hexVal h1, hexVal h2, hexVal h3, hexVal h4 with
  | some a, some b, some c, some d => some (a * 4096 + b * 256 + c * 16 + d)
  | _, _, _, _ => none

/-- Read four hexadecimal digit characters off the front of a stream. -/
def readHex4 : List Char → Option (Nat × List Char)
  | h1 :: h2 :: h3 :: h4 :: rest =>
    match hex4 h1 h2 h3 h4 with
    | some u => some (u, rest)
    | none => none
  | _ => none

/-- Decode the body of a `\uXXXX` escape (the part after `\u`), recombining a
UTF-16 surrogate pair as `json.loads` does.  A lone surrogate, which Lean's
`Char` cannot represent, is modelled as a failure (it never occurs in
`json.dumps` output). -/
def decodeUEsc (rest2 : List Char) : Except Unit (Char × List Char) :=
  match readHex4 rest2 with
  | none => .error ()
  | some (u, rest3) =>
    if 55296 ≤ u ∧ u ≤ 56319 then
      match rest3 with
      | c1 :: c2 :: r4 =>
        if c1 = '\\' ∧ c2 = 'u' then
          match readHex4 r4 with
          | some (u2, rest5) =>
            if 56320 ≤ u2 ∧ u2 ≤ 57343 then
              .ok (Char.ofNat (65536 + (u - 55296) * 1024 + (u2 - 56320)), rest5)
            else .error ()
          | none => .error ()
        else .error ()
      | _ => .error ()
    else if 56320 ≤ u ∧ u ≤ 57343 then .error ()
    else .ok (Char.ofNat u, rest3)

/-- Fuelled parser for a JSON string body (the part after the opening quote),
modelling how `json.loads` scans a string.  `fuel > length` suffices. -/
def parseStrF : Nat → List Char → Except Unit (List Char × List Char)
  | 0, _ => .error ()
  | fuel + 1, s =>
    match s with
    | [] => .error ()
    | c :: rest =>
      if c = '"' then .ok ([], rest)
      else if c = '\\' then
        match rest with
        | [] => .error ()
        | e :: rest2 =>
          if e = 'u' then
            match decodeUEsc rest2 with
            | .error er => .error er
            | .ok (ch, rest3) =>
              match parseStrF fuel rest3 with
              | .ok (cs, r) => .ok (ch :: cs, r)
              | .error er => .error er
          else
            match escCode e with
            | none => .error ()
            | some d =>
              match parseStrF fuel rest2 with
              | .ok (cs, r) => .ok (d :: cs, r)
              | .error er => .error er
      else
        match parseStrF fuel rest with
        | .ok (cs, r) => .ok (c :: cs, r)
        | .error er => .error er


/-- Final step of number parsing: reject a following float continuation
(`.`/`e`/`E`, outside the modelled integer subset), otherwise succeed. -/
def parseNumFinish (v : Int) (rest : List Char) : Except Unit (J × List Char) :=
  match rest with
  | c :: _ => if c = '.' ∨ c = 'e' ∨ c = 'E' then .error () else .ok (J.num v, rest)
  | [] => .ok (J.num v, rest)

/-- Digits of a JSON integer literal after an optional sign: one or more
decimal digits with no leading zero (the JSON grammar rule). -/
def parseNumCore (neg : Bool) (s1 : List Char) : Except Unit (J × List Char) :=
  let digits := s1.takeWhile isDigitC
  let rest := s1.dropWhile isDigitC
  if digits = [] then .error ()
  else if digits.head? = some '0' ∧ digits.length ≠ 1 then .error ()
  else parseNumFinish (if neg then -(digitsToNat digits : Int) else (digitsToNat digits : Int)) rest

/-- Parser for a JSON number restricted to the integer subset the service
exchanges: an optional minus sign and decimal digits. -/
def parseNum (s : List Char) : Except Unit (J × List Char) :=
  match s with
  | c :: rest => if c = '-' then parseNumCore true rest else parseNumCore false (c :: rest)
  | [] => parseNumCore false []

mutual

/-- Fuelled recursive-descent parser for one JSON value, modelling
`json.loads` on the subset in `J`.  Any fuel above the total number of
values in the input suffices. -/
def parseValueF : Nat → List Char → Except Unit (J × List Char)
  | 0, _ => .error ()
  | fuel + 1, s =>
    match skipWs s with
    | [] => .error ()
    | c :: rest =>
      if c = 'n' then
        match rest with
        | 'u' :: 'l' :: 'l' :: r => .ok (J.null, r)
        | _ => .error ()
      else if c = 't' then
        match rest with
        | 'r' :: 'u' :: 'e' :: r => .ok (J.boolean true, r)
        | _ => .error ()
      else if c = 'f' then
        match rest with
        | 'a' :: 'l' :: 's' :: 'e' :: r => .ok (J.boolean false, r)
        | _ => .error ()
      else if c = '"' then
        match parseStrF (rest.length + 1) rest with
        | .ok (cs, r) => .ok (J.str cs, r)
        | .error er => .error er
      else if c = '[' then
        match skipWs rest with
        | [] => .error ()
        | c2 :: r2 =>
          if c2 = ']' then .ok (J.arr [], r2)
          else
            match parseElemsF fuel (c2 :: r2) with
            | .ok (xs, r3) => .ok (J.arr xs, r3)
            | .error er => .error er
      else if c = Char.ofNat 123 then
        match skipWs rest with
        | [] => .error ()
        | c2 :: r2 =>
          if c2 = Char.ofNat 125 then .ok (J.obj [], r2)
          else
            match parseFieldsF fuel (c2 :: r2) with
            | .ok (fs, r3) => .ok (J.obj fs, r3)
            | .error er => .error er
      else if c = '-' ∨ isDigitC c then parseNum (c :: rest)
      else .error ()

/-- Fuelled parser for the elements of a non-empty JSON array, up to and
including the closing bracket. -/
def parseElemsF : Nat → List Char → Except Unit (List J × List Char)
  | 0, _ => .error ()
  | fuel + 1, s =>
    match parseValueF fuel s with
    | .error er => .error er
    | .ok (v, r1) =>
      match skipWs r1 with
      | [] => .error ()
      | c :: r2 =>
        if c = ',' then
          match parseElemsF fuel r2 with
          | .ok (vs, r3) => .ok (v :: vs, r3)
          | .error er => .error er
        else if c = ']' then .ok ([v], r2)
        else .error ()

/-- Fuelled parser for the fields of a non-empty JSON object, up to and
including the closing brace. -/
def parseFieldsF : Nat → List Char → Except Unit (List (List Char × J) × List Char)
  | 0, _ => .error ()
  | fuel + 1, s =>
    match skipWs s with
    | [] => .error ()
    | c :: r1 =>
      if c = '"' then
        match parseStrF (r1.length + 1) r1 with
        | .error er => .error er
        | .ok (k, r2) =>
          match skipWs r2 with
          | [] => .error ()
          | c2 :: r3 =>
            if c2 = ':' then
              match parseValueF fuel r3 with
              | .error er => .error er
              | .ok (v, r4) =>
                match skipWs r4 with
                | [] => .error ()
                | c3 :: r5 =>
                  if c3 = ',' then
                    match parseFieldsF fuel r5 with
                    | .ok (fs, r6) => .ok ((k, v) :: fs, r6)
                    | .error er => .error er
                  else if c3 = Char.ofNat 125 then .ok ([(k, v)], r5)
                  else .error ()
            else .error ()
      else .error ()

end

/-- Model of `json.loads(body)`: parse one value and require only whitespace
to remain, failing otherwise (the `Extra data` error). -/
def jsonParse (s : List Char) : Except Unit J :=
  match parseValueF (s.length + 1) s with
  | .error er => .error er
  | .ok (v, rest) => if skipWs rest = [] then .ok v else .error ()

/-! ## Round-trip: `jsonParse (dumpsV m) = .ok m` -/

/-- Lists made of JSON whitespace only. -/
def wsOnly (l : List Char) : Prop := ∀ c ∈ l, isJsonWs c = true

/-- Continuations that cannot extend a just-parsed integer literal. -/
def numSafe : List Char → Prop
  | [] => True
  | c :: _ => isDigitC c = false ∧ c ≠ '.' ∧ c ≠ 'e' ∧ c ≠ 'E'

theorem skipWs_append_wsOnly (pre l : List Char) (h : wsOnly pre) :
    skipWs (pre ++ l) = skipWs l := by
  induction pre with
  | nil => rfl
  | cons c cs ih =>
    have hc : isJsonWs c = true := h c (by simp)
    simp only [List.cons_append, skipWs, List.dropWhile_cons, hc, if_pos]
    exact ih fun d hd => h d (by simp [hd])

theorem skipWs_cons_false (c : Char) (l : List Char) (h : isJsonWs c = false) :
    skipWs (c :: l) = c :: l := by
  simp [skipWs, List.dropWhile_cons, h]

theorem takeWhile_append_stop (p : Char → Bool) (l r : List Char)
    (hl : l.all p = true) (hr : ∀ c t, r = c :: t → p c = false) :
    (l ++ r).takeWhile p = l ∧ (l ++ r).dropWhile p = r := by
  induction l with
  | nil =>
    cases r with
    | nil => simp
    | cons c t => simp [List.takeWhile, List.dropWhile, hr c t rfl]
  | cons c cs ih =>
    simp only [List.all_cons, Bool.and_eq_true] at hl
    have := ih hl.2
    simp [List.takeWhile_cons, List.dropWhile_cons, hl.1, this.1, this.2]

theorem hexVal_hexChar (k : Nat) (h : k < 16) : hexVal (hexChar k) = some k := by
  interval_cases k <;> decide

theorem hex4_toHex4 (n : Nat) (h : n < 65536) :
    hex4 (hexChar (n / 4096 % 16)) (hexChar (n / 256 % 16)) (hexChar (n / 16 % 16))
      (hexChar (n % 16)) = some n := by
  rw [hex4, hexVal_hexChar _ (by omega), hexVal_hexChar _ (by omega),
    hexVal_hexChar _ (by omega), hexVal_hexChar _ (by omega)]
  exact congrArg some (by omega)

theorem readHex4_toHex4 (n : Nat) (h : n < 65536) (tail : List Char) :
    readHex4 (toHex4 n ++ tail) = some (n, tail) := by
  show readHex4 (hexChar (n / 4096 % 16) :: hexChar (n / 256 % 16) :: hexChar (n / 16 % 16) ::
    hexChar (n % 16) :: tail) = some (n, tail)
  rw [readHex4, hex4_toHex4 n h]

theorem char_toNat_lt (c : Char) : c.toNat < 1114112 := by
  show c.val.toNat < 1114112
  rcases c.valid with h | ⟨_, h2⟩
  · omega
  · exact h2

theorem char_not_surrogate (c : Char) : c.toNat < 55296 ∨ 57343 < c.toNat := by
  show c.val.toNat < 55296 ∨ 57343 < c.val.toNat
  rcases c.valid with h | ⟨h1, _⟩
  · exact Or.inl h
  · exact Or.inr h1

theorem decodeUEsc_bmp (u : Nat) (tail : List Char) (hu : u < 65536)
    (hns1 : ¬(55296 ≤ u ∧ u ≤ 56319)) (hns2 : ¬(56320 ≤ u ∧ u ≤ 57343)) :
    decodeUEsc (toHex4 u ++ tail) = .ok (Char.ofNat u, tail) := by
  rw [decodeUEsc.eq_def, readHex4_toHex4 u hu]
  dsimp only
  rw [if_neg hns1, if_neg hns2]

theorem decodeUEsc_astral (a b : Nat) (tail : List Char)
    (ha : 55296 ≤ a ∧ a ≤ 56319) (hb : 56320 ≤ b ∧ b ≤ 57343) :
    decodeUEsc (toHex4 a ++ ('\\' :: 'u' :: (toHex4 b ++ tail))) =
      .ok (Char.ofNat (65536 + (a - 55296) * 1024 + (b - 56320)), tail) := by
  rw [decodeUEsc.eq_def, readHex4_toHex4 a (by omega)]
  dsimp only
  rw [if_pos ha, if_pos (⟨rfl, rfl⟩ : ('\\' : Char) = '\\' ∧ ('u' : Char) = 'u'),
    readHex4_toHex4 b (by omega)]
  dsimp only
  rw [if_pos hb]

theorem parseStrF_quote (fuel : Nat) (tail : List Char) :
    parseStrF (fuel + 1) ('"' :: tail) = .ok ([], tail) := rfl

theorem parseStrF_plain (fuel : Nat) (c : Char) (tail : List Char)
    (h1 : c ≠ '"') (h2 : c ≠ '\\') :
    parseStrF (fuel + 1) (c :: tail) =
      match parseStrF fuel tail with
      | .ok (cs, r) => .ok (c :: cs, r)
      | .error er => .error er := by
  rw [parseStrF.eq_def]
  dsimp only
  rw [if_neg h1, if_neg h2]

theorem parseStrF_u (fuel : Nat) (rest2 : List Char) :
    parseStrF (fuel + 1) ('\\' :: 'u' :: rest2) =
      match decodeUEsc rest2 with
      | .error er => .error er
      | .ok (ch, rest3) =>
        match parseStrF fuel rest3 with
        | .ok (cs, r) => .ok (ch :: cs, r)
        | .error er => .error er := rfl

theorem parseStrF_escape (fuel : Nat) :
    ∀ cs rest, (escapeString cs).length < fuel →
      parseStrF fuel (escapeString cs ++ '"' :: rest) = .ok (cs, rest) := by
  induction fuel with
  | zero => intro cs rest h; exact (Nat.not_lt_zero _ h).elim
  | succ fuel ih =>
    intro cs rest h
    cases cs with
    | nil => exact parseStrF_quote fuel rest
    | cons c cs' =>
      have hlen : (escapeString (c :: cs')).length =
          (escapeChar c).length + (escapeString cs').length := by
        simp [escapeString]
      have hchar : 1 ≤ (escapeChar c).length := by
        rw [escapeChar]
        split_ifs <;> simp [toHex4]
      have ihcs : parseStrF fuel (escapeString cs' ++ '"' :: rest) = .ok (cs', rest) :=
        ih cs' rest (by omega)
      show parseStrF (fuel + 1) (escapeString (c :: cs') ++ '"' :: rest) = _
      rw [show escapeString (c :: cs') = escapeChar c ++ escapeString cs' from rfl]
      rw [escapeChar]
      by_cases h1 : c = '"'
      · simp only [if_pos h1, List.cons_append, List.nil_append]
        have step : parseStrF (fuel + 1) ('\\' :: '"' :: (escapeString cs' ++ '"' :: rest)) =
            match parseStrF fuel (escapeString cs' ++ '"' :: rest) with
            | .ok (cs, r) => .ok ('"' :: cs, r)
            | .error er => .error er := rfl
        rw [step, ihcs, h1]
      rw [if_neg h1]
      by_cases h2 : c = '\\'
      · simp only [if_pos h2, List.cons_append, List.nil_append]
        have step : parseStrF (fuel + 1) ('\\' :: '\\' :: (escapeString cs' ++ '"' :: rest)) =
            match parseStrF fuel (escapeString cs' ++ '"' :: rest) with
            | .ok (cs, r) => .ok ('\\' :: cs, r)
            | .error er => .error er := rfl
        rw [step, ihcs, h2]
      rw [if_neg h2]
      by_cases h3 : c = '\n'
      · simp only [if_pos h3, List.cons_append, List.nil_append]
        have step : parseStrF (fuel + 1) ('\\' :: 'n' :: (escapeString cs' ++ '"' :: rest)) =
            match parseStrF fuel (escapeString cs' ++ '"' :: rest) with
            | .ok (cs, r) => .ok ('\n' :: cs, r)
            | .error er => .error er := rfl
        rw [step, ihcs, h3]
      rw [if_neg h3]
      by_cases h4 : c = '\t'
      · simp only [if_pos h4, List.cons_append, List.nil_append]
        have step : parseStrF (fuel + 1) ('\\' :: 't' :: (escapeString cs' ++ '"' :: rest)) =
            match parseStrF fuel (escapeString cs' ++ '"' :: rest) with
            | .ok (cs, r) => .ok ('\t' :: cs, r)
            | .error er => .error er := rfl
        rw [step, ihcs, h4]
      rw [if_neg h4]
      by_cases h5 : c = '\r'
      · simp only [if_pos h5, List.cons_append, List.nil_append]
        have step : parseStrF (fuel + 1) ('\\' :: 'r' :: (escapeString cs' ++ '"' :: rest)) =
            match parseStrF fuel (escapeString cs' ++ '"' :: rest) with
            | .ok (cs, r) => .ok ('\r' :: cs, r)
            | .error er => .error er := rfl
        rw [step, ihcs, h5]
      rw [if_neg h5]
      by_cases h6 : c.toNat = 8
      · simp only [if_pos h6, List.cons_append, List.nil_append]
        have step : parseStrF (fuel + 1) ('\\' :: 'b' :: (escapeString cs' ++ '"' :: rest)) =
            match parseStrF fuel (escapeString cs' ++ '"' :: rest) with
            | .ok (cs, r) => .ok (Char.ofNat 8 :: cs, r)
            | .error er => .error er := rfl
        rw [step, ihcs, show (8 : Nat) = c.toNat from h6.symm, Char.ofNat_toNat]
      rw [if_neg h6]
      by_cases h7 : c.toNat = 12
      · simp only [if_pos h7, List.cons_append, List.nil_append]
        have step : parseStrF (fuel + 1) ('\\' :: 'f' :: (escapeString cs' ++ '"' :: rest)) =
            match parseStrF fuel (escapeString cs' ++ '"' :: rest) with
            | .ok (cs, r) => .ok (Char.ofNat 12 :: cs, r)
            | .error er => .error er := rfl
        rw [step, ihcs, show (12 : Nat) = c.toNat from h7.symm, Char.ofNat_toNat]
      rw [if_neg h7]
      by_cases h8 : c.toNat < 32
      · simp only [if_pos h8, List.cons_append, List.append_assoc, List.nil_append]
        rw [parseStrF_u, decodeUEsc_bmp c.toNat _ (by omega) (by omega) (by omega)]
        dsimp only
        rw [ihcs, Char.ofNat_toNat]
      rw [if_neg h8]
      by_cases h9 : c.toNat ≤ 126
      · simp only [if_pos h9, List.cons_append, List.nil_append]
        rw [parseStrF_plain fuel c _ h1 h2, ihcs]
      rw [if_neg h9]
      by_cases h10 : c.toNat ≤ 65535
      · simp only [if_pos h10, List.cons_append, List.append_assoc, List.nil_append]
        have hns := char_not_surrogate c
        rw [parseStrF_u, decodeUEsc_bmp c.toNat _ (by omega) (by omega) (by omega)]
        dsimp only
        rw [ihcs, Char.ofNat_toNat]
      · rw [if_neg h10]
        have hlt := char_toNat_lt c
        have hd1 : (c.toNat - 65536) / 1024 < 1024 := by omega
        simp only [List.cons_append, List.append_assoc, List.nil_append]
        rw [parseStrF_u,
          decodeUEsc_astral (55296 + (c.toNat - 65536) / 1024)
            (56320 + (c.toNat - 65536) % 1024) _ (by omega) (by omega)]
        dsimp only
        rw [ihcs]
        have hcomb : 65536 + (55296 + (c.toNat - 65536) / 1024 - 55296) * 1024 +
            (56320 + (c.toNat - 65536) % 1024 - 56320) = c.toNat := by omega
        rw [hcomb, Char.ofNat_toNat]


/-- Characters of `natDigits` are never `'-'` or `'+'` and never letters. -/
theorem isDigitC_bounds (c : Char) (h : isDigitC c = true) : 48 ≤ c.toNat ∧ c.toNat ≤ 57 := by
  simp only [isDigitC, Bool.and_eq_true, decide_eq_true_eq] at h
  exact h

theorem numSafe_cons (c : Char) (t : List Char)
    (h : isDigitC c = false ∧ c ≠ '.' ∧ c ≠ 'e' ∧ c ≠ 'E') : numSafe (c :: t) := h

theorem parseNumFinish_safe (v : Int) (rest : List Char) (hrest : numSafe rest) :
    parseNumFinish v rest = .ok (J.num v, rest) := by
  cases rest with
  | nil => rfl
  | cons c t =>
    show (if c = '.' ∨ c = 'e' ∨ c = 'E' then (.error () : Except Unit (J × List Char))
      else .ok (J.num v, c :: t)) = .ok (J.num v, c :: t)
    rw [numSafe] at hrest
    rw [if_neg (by simp only [not_or]; exact ⟨hrest.2.1, hrest.2.2.1, hrest.2.2.2⟩)]

theorem parseNumCore_digits (neg : Bool) (m : Nat) (rest : List Char) (hrest : numSafe rest) :
    parseNumCore neg (natDigits m ++ rest) =
      .ok (J.num (if neg then -(m : Int) else (m : Int)), rest) := by
  have hstop : ∀ c t, rest = c :: t → isDigitC c = false := by
    intro c t hct
    rw [hct] at hrest
    exact hrest.1
  have hsplit := takeWhile_append_stop isDigitC (natDigits m) rest
    (natDigits_all_digits m) hstop
  have hnozero : ¬((natDigits m).head? = some '0' ∧ (natDigits m).length ≠ 1) := by
    by_cases hz : m = 0
    · rw [hz]
      rw [show natDigits 0 = ['0'] from rfl]
      simp
    · intro ⟨hh, _⟩
      exact natDigits_head_ne_zero m (by omega) hh
  simp only [parseNumCore]
  rw [hsplit.1, hsplit.2]
  rw [if_neg (by simp [natDigits_ne_nil m]), if_neg hnozero]
  rw [digitsToNat_natDigits]
  exact parseNumFinish_safe _ rest hrest

theorem parseNum_dumps (n : Int) (rest : List Char) (hrest : numSafe rest) :
    parseNum (dumpsV (J.num n) ++ rest) = .ok (J.num n, rest) := by
  rcases Int.lt_or_le n 0 with hneg | hpos
  · have hdv : dumpsV (J.num n) = '-' :: natDigits n.natAbs := by
      rw [dumpsV, if_pos hneg]
    rw [hdv]
    show parseNumCore true (natDigits n.natAbs ++ rest) = _
    rw [parseNumCore_digits true n.natAbs rest hrest,
      show (if true then -((n.natAbs : Nat) : Int) else ((n.natAbs : Nat) : Int)) =
        -((n.natAbs : Nat) : Int) from rfl,
      show -((n.natAbs : Nat) : Int) = n by omega]
  · have hdv : dumpsV (J.num n) = natDigits n.natAbs := by
      rw [dumpsV, if_neg (by omega)]
    obtain ⟨d, ds, hds⟩ := List.exists_cons_of_ne_nil (natDigits_ne_nil n.natAbs)
    have hd_digit : isDigitC d = true := by
      have := natDigits_all_digits n.natAbs
      rw [hds] at this
      simp only [List.all_cons, Bool.and_eq_true] at this
      exact this.1
    have hd_bounds := isDigitC_bounds d hd_digit
    have hd_ne_minus : d ≠ '-' := by
      intro hEq
      rw [hEq] at hd_bounds
      exact absurd hd_bounds (by decide)
    rw [hdv, hds, List.cons_append]
    have hstep : parseNum (d :: (ds ++ rest)) =
        if d = '-' then parseNumCore true (ds ++ rest)
        else parseNumCore false (d :: (ds ++ rest)) := rfl
    rw [hstep, if_neg hd_ne_minus, ← List.cons_append, ← hds,
      parseNumCore_digits false n.natAbs rest hrest,
      show (if false then -((n.natAbs : Nat) : Int) else ((n.natAbs : Nat) : Int)) =
        ((n.natAbs : Nat) : Int) from rfl,
      show ((n.natAbs : Nat) : Int) = n by omega]

/-! ## Step lemmas for the value parser -/

theorem wsOnly_nil : wsOnly [] := fun c h => absurd h (List.not_mem_nil c)

theorem wsOnly_space : wsOnly [' '] := by
  intro c h
  simp only [List.mem_singleton] at h
  rw [h]
  rfl

theorem parseValueF_null (fuel : Nat) (s r : List Char)
    (hskip : skipWs s = 'n' :: 'u' :: 'l' :: 'l' :: r) :
    parseValueF (fuel + 1) s = .ok (J.null, r) := by
  rw [parseValueF.eq_def]
  dsimp only
  rw [hskip]
  rfl

theorem parseValueF_true (fuel : Nat) (s r : List Char)
    (hskip : skipWs s = 't' :: 'r' :: 'u' :: 'e' :: r) :
    parseValueF (fuel + 1) s = .ok (J.boolean true, r) := by
  rw [parseValueF.eq_def]
  dsimp only
  rw [hskip]
  rfl

theorem parseValueF_false (fuel : Nat) (s r : List Char)
    (hskip : skipWs s = 'f' :: 'a' :: 'l' :: 's' :: 'e' :: r) :
    parseValueF (fuel + 1) s = .ok (J.boolean false, r) := by
  rw [parseValueF.eq_def]
  dsimp only
  rw [hskip]
  rfl

theorem parseValueF_str (fuel : Nat) (s tail : List Char)
    (hskip : skipWs s = '"' :: tail) :
    parseValueF (fuel + 1) s =
      match parseStrF (tail.length + 1) tail with
      | .ok (cs, r) => .ok (J.str cs, r)
      | .error er => .error er := by
  rw [parseValueF.eq_def]
  dsimp only
  rw [hskip]
  rfl

theorem parseValueF_arr (fuel : Nat) (s tail : List Char)
    (hskip : skipWs s = '[' :: tail) :
    parseValueF (fuel + 1) s =
      match skipWs tail with
      | [] => .error ()
      | c2 :: r2 =>
        if c2 = ']' then .ok (J.arr [], r2)
        else
          match parseElemsF fuel (c2 :: r2) with
          | .ok (xs, r3) => .ok (J.arr xs, r3)
          | .error er => .error er := by
  rw [parseValueF.eq_def]
  dsimp only
  rw [hskip]
  rfl

theorem parseValueF_objB (fuel : Nat) (s tail : List Char)
    (hskip : skipWs s = Char.ofNat 123 :: tail) :
    parseValueF (fuel + 1) s =
      match skipWs tail with
      | [] => .error ()
      | c2 :: r2 =>
        if c2 = Char.ofNat 125 then .ok (J.obj [], r2)
        else
          match parseFieldsF fuel (c2 :: r2) with
          | .ok (fs, r3) => .ok (J.obj fs, r3)
          | .error er => .error er := by
  rw [parseValueF.eq_def]
  dsimp only
  rw [hskip]
  rfl

theorem digit_or_minus_facts (c : Char) (hdig : c = '-' ∨ isDigitC c = true) :
    c ≠ 'n' ∧ c ≠ 't' ∧ c ≠ 'f' ∧ c ≠ '"' ∧ c ≠ '[' ∧ c ≠ Char.ofNat 123 ∧
      isJsonWs c = false := by
  rcases hdig with h | h
  · subst h
    refine ⟨by decide, by decide, by decide, by decide, by decide, by decide, by decide⟩
  · have hb := isDigitC_bounds c h
    have hne : ∀ d : Char, ¬(48 ≤ d.toNat ∧ d.toNat ≤ 57) → c ≠ d := by
      intro d hd hEq
      rw [hEq] at hb
      exact hd hb
    refine ⟨hne _ (by decide), hne _ (by decide), hne _ (by decide), hne _ (by decide),
      hne _ (by decide), hne _ (by decide), ?_⟩
    simp only [isJsonWs, Bool.or_eq_false_iff, decide_eq_false_iff_not]
    refine ⟨⟨⟨hne _ (by decide), hne _ (by decide)⟩, hne _ (by decide)⟩, hne _ (by decide)⟩

theorem parseValueF_digit (fuel : Nat) (s : List Char) (c : Char) (tail : List Char)
    (hskip : skipWs s = c :: tail) (hdig : c = '-' ∨ isDigitC c = true) :
    parseValueF (fuel + 1) s = parseNum (c :: tail) := by
  obtain ⟨h1, h2, h3, h4, h5, h6, _⟩ := digit_or_minus_facts c hdig
  rw [parseValueF.eq_def]
  dsimp only
  rw [hskip]
  dsimp only
  rw [if_neg h1, if_neg h2, if_neg h3, if_neg h4, if_neg h5, if_neg h6, if_pos hdig]

theorem parseElemsF_succ (fuel : Nat) (s : List Char) :
    parseElemsF (fuel + 1) s =
      match parseValueF fuel s with
      | .error er => .error er
      | .ok (v, r1) =>
        match skipWs r1 with
        | [] => .error ()
        | c :: r2 =>
          if c = ',' then
            match parseElemsF fuel r2 with
            | .ok (vs, r3) => .ok (v :: vs, r3)
            | .error er => .error er
          else if c = ']' then .ok ([v], r2)
          else .error () := rfl

/-! ## Shape facts about `dumpsV` output -/

theorem dumpsV_ne_nil (m : J) : dumpsV m ≠ [] := by
  cases m with
  | null => simp [dumpsV]
  | boolean b => cases b <;> simp [dumpsV]
  | num n =>
    rw [dumpsV]
    split
    · simp
    · exact natDigits_ne_nil n.natAbs
  | str s => simp [dumpsV]
  | arr xs => simp [dumpsV]
  | obj fs => simp [dumpsV]

theorem dumpsV_length_pos (m : J) : 1 ≤ (dumpsV m).length :=
  List.length_pos.mpr (dumpsV_ne_nil m)

theorem dumpsV_num_head (n : Int) : ∀ d ds, dumpsV (J.num n) = d :: ds →
    d = '-' ∨ isDigitC d = true := by
  intro d ds hds
  rw [dumpsV] at hds
  split at hds
  · exact Or.inl (List.cons.injEq .. ▸ hds).1.symm
  · right
    have := natDigits_all_digits n.natAbs
    rw [hds] at this
    simp only [List.all_cons, Bool.and_eq_true] at this
    exact this.1

theorem dumpsV_head_facts (m : J) : ∃ c t, dumpsV m = c :: t ∧ isJsonWs c = false ∧
    c ≠ ']' ∧ c ≠ Char.ofNat 125 := by
  cases m with
  | null => exact ⟨'n', _, rfl, by decide, by decide, by decide⟩
  | boolean b =>
    cases b
    · exact ⟨'f', _, rfl, by decide, by decide, by decide⟩
    · exact ⟨'t', _, rfl, by decide, by decide, by decide⟩
  | num n =>
    obtain ⟨d, ds, hds⟩ := List.exists_cons_of_ne_nil (dumpsV_ne_nil (J.num n))
    rcases dumpsV_num_head n d ds hds with h | h
    · exact ⟨d, ds, hds, by rw [h]; decide, by rw [h]; decide, by rw [h]; decide⟩
    · have hb := isDigitC_bounds d h
      have hne : ∀ e : Char, ¬(48 ≤ e.toNat ∧ e.toNat ≤ 57) → d ≠ e := by
        intro e he hEq
        rw [hEq] at hb
        exact he hb
      refine ⟨d, ds, hds, ?_, hne _ (by decide), hne _ (by decide)⟩
      simp only [isJsonWs, Bool.or_eq_false_iff, decide_eq_false_iff_not]
      exact ⟨⟨⟨hne _ (by decide), hne _ (by decide)⟩, hne _ (by decide)⟩, hne _ (by decide)⟩
  | str s => exact ⟨'"', _, rfl, by decide, by decide, by decide⟩
  | arr xs => exact ⟨'[', _, rfl, by decide, by decide, by decide⟩
  | obj fs => exact ⟨Char.ofNat 123, _, rfl, by decide, by decide, by decide⟩

theorem dumpsElems_cons_head (x : J) (xs : List J) : ∃ c t, dumpsElems (x :: xs) = c :: t ∧
    isJsonWs c = false ∧ c ≠ ']' ∧ c ≠ Char.ofNat 125 := by
  obtain ⟨c, t, hct, hw, h1, h2⟩ := dumpsV_head_facts x
  cases xs with
  | nil => exact ⟨c, t, by rw [show dumpsElems [x] = dumpsV x from rfl, hct], hw, h1, h2⟩
  | cons y ys =>
    refine ⟨c, t ++ ',' :: ' ' :: dumpsElems (y :: ys), ?_, hw, h1, h2⟩
    rw [show dumpsElems (x :: y :: ys) = dumpsV x ++ ',' :: ' ' :: dumpsElems (y :: ys) from rfl,
      hct]
    rfl


theorem parseFieldsF_start (fuel : Nat) (s r1 : List Char)
    (hskip : skipWs s = '"' :: r1) :
    parseFieldsF (fuel + 1) s =
      match parseStrF (r1.length + 1) r1 with
      | .error er => .error er
      | .ok (k, r2) =>
        match skipWs r2 with
        | [] => .error ()
        | c2 :: r3 =>
          if c2 = ':' then
            match parseValueF fuel r3 with
            | .error er => .error er
            | .ok (v, r4) =>
              match skipWs r4 with
              | [] => .error ()
              | c3 :: r5 =>
                if c3 = ',' then
                  match parseFieldsF fuel r5 with
                  | .ok (fs, r6) => .ok ((k, v) :: fs, r6)
                  | .error er => .error er
                else if c3 = Char.ofNat 125 then .ok ([(k, v)], r5)
                else .error ()
          else .error () := by
  rw [parseFieldsF.eq_def]
  dsimp only
  rw [hskip]
  rfl

theorem parse_dumps_all : ∀ fuel : Nat,
    (∀ m pre rest, wsOnly pre → numSafe rest → (dumpsV m).length < fuel →
      parseValueF fuel (pre ++ (dumpsV m ++ rest)) = .ok (m, rest)) ∧
    (∀ xs pre rest, wsOnly pre → xs ≠ [] → (dumpsElems xs).length + 1 < fuel →
      parseElemsF fuel (pre ++ (dumpsElems xs ++ ']' :: rest)) = .ok (xs, rest)) ∧
    (∀ fs pre rest, wsOnly pre → fs ≠ [] → (dumpsFields fs).length + 1 < fuel →
      parseFieldsF fuel (pre ++ (dumpsFields fs ++ Char.ofNat 125 :: rest)) = .ok (fs, rest)) := by
  intro fuel
  induction fuel with
  | zero =>
    refine ⟨?_, ?_, ?_⟩ <;> intro a pre rest h1 h2 h3 <;>
      exact absurd h3 (Nat.not_lt_zero _)
  | succ fuel ih =>
    obtain ⟨ihV, ihE, ihF⟩ := ih
    refine ⟨?_, ?_, ?_⟩
    · intro m pre rest hpre hrest hlen
      cases m with
      | null =>
        refine parseValueF_null fuel _ rest ?_
        rw [show dumpsV J.null ++ rest = 'n' :: 'u' :: 'l' :: 'l' :: rest from rfl,
          skipWs_append_wsOnly pre _ hpre, skipWs_cons_false _ _ (by decide)]
      | boolean b =>
        cases b
        · refine parseValueF_false fuel _ rest ?_
          rw [show dumpsV (J.boolean false) ++ rest = 'f' :: 'a' :: 'l' :: 's' :: 'e' :: rest
              from rfl,
            skipWs_append_wsOnly pre _ hpre, skipWs_cons_false _ _ (by decide)]
        · refine parseValueF_true fuel _ rest ?_
          rw [show dumpsV (J.boolean true) ++ rest = 't' :: 'r' :: 'u' :: 'e' :: rest from rfl,
            skipWs_append_wsOnly pre _ hpre, skipWs_cons_false _ _ (by decide)]
      | num n =>
        obtain ⟨d, ds, hds⟩ := List.exists_cons_of_ne_nil (dumpsV_ne_nil (J.num n))
        have hdig := dumpsV_num_head n d ds hds
        obtain ⟨_, _, _, _, _, _, hw⟩ := digit_or_minus_facts d hdig
        have hskip : skipWs (pre ++ (dumpsV (J.num n) ++ rest)) = d :: (ds ++ rest) := by
          rw [skipWs_append_wsOnly pre _ hpre, hds, List.cons_append,
            skipWs_cons_false _ _ hw]
        rw [parseValueF_digit fuel _ d (ds ++ rest) hskip hdig,
          show d :: (ds ++ rest) = (d :: ds) ++ rest from rfl, ← hds]
        exact parseNum_dumps n rest hrest
      | str s =>
        have hflat : dumpsV (J.str s) ++ rest = '"' :: (escapeString s ++ '"' :: rest) := by
          rw [dumpsV]
          simp [List.append_assoc]
        have hskip : skipWs (pre ++ (dumpsV (J.str s) ++ rest)) =
            '"' :: (escapeString s ++ '"' :: rest) := by
          rw [skipWs_append_wsOnly pre _ hpre, hflat, skipWs_cons_false _ _ (by decide)]
        rw [parseValueF_str fuel _ _ hskip,
          parseStrF_escape ((escapeString s ++ '"' :: rest).length + 1) s rest
            (by simp; omega)]
      | arr xs =>
        cases xs with
        | nil =>
          have hskip : skipWs (pre ++ (dumpsV (J.arr []) ++ rest)) = '[' :: (']' :: rest) := by
            rw [skipWs_append_wsOnly pre _ hpre,
              show dumpsV (J.arr []) ++ rest = '[' :: (']' :: rest) from rfl,
              skipWs_cons_false _ _ (by decide)]
          rw [parseValueF_arr fuel _ _ hskip, skipWs_cons_false _ _ (by decide)]
          rfl
        | cons x xs' =>
          obtain ⟨c, t, hct, hw, hcne, _⟩ := dumpsElems_cons_head x xs'
          have hflat : dumpsV (J.arr (x :: xs')) ++ rest =
              '[' :: (dumpsElems (x :: xs') ++ ']' :: rest) := by
            rw [dumpsV]
            simp [List.append_assoc]
          have hskip : skipWs (pre ++ (dumpsV (J.arr (x :: xs')) ++ rest)) =
              '[' :: (dumpsElems (x :: xs') ++ ']' :: rest) := by
            rw [skipWs_append_wsOnly pre _ hpre, hflat, skipWs_cons_false _ _ (by decide)]
          rw [parseValueF_arr fuel _ _ hskip]
          have htail : dumpsElems (x :: xs') ++ ']' :: rest = c :: (t ++ ']' :: rest) := by
            rw [hct]
            rfl
          rw [htail, skipWs_cons_false _ _ hw]
          dsimp only
          rw [if_neg hcne, ← htail]
          have hlen2 : (dumpsElems (x :: xs')).length + 1 < fuel := by
            have : (dumpsV (J.arr (x :: xs'))).length = (dumpsElems (x :: xs')).length + 2 := by
              rw [dumpsV]
              simp
            omega
          have hel := ihE (x :: xs') [] rest wsOnly_nil (by simp) hlen2
          rw [List.nil_append] at hel
          rw [hel]
      | obj fs =>
        cases fs with
        | nil =>
          have hskip : skipWs (pre ++ (dumpsV (J.obj []) ++ rest)) =
              Char.ofNat 123 :: (Char.ofNat 125 :: rest) := by
            rw [skipWs_append_wsOnly pre _ hpre,
              show dumpsV (J.obj []) ++ rest = Char.ofNat 123 :: (Char.ofNat 125 :: rest)
                from rfl,
              skipWs_cons_false _ _ (by decide)]
          rw [parseValueF_objB fuel _ _ hskip, skipWs_cons_false _ _ (by decide)]
          rfl
        | cons f fs' =>
          obtain ⟨k, v⟩ := f
          have hffacts : ∃ t, dumpsFields ((k, v) :: fs') = '"' :: t := by
            cases fs' with
            | nil => exact ⟨_, rfl⟩
            | cons g gs => exact ⟨_, rfl⟩
          obtain ⟨t, hft⟩ := hffacts
          have hflat : dumpsV (J.obj ((k, v) :: fs')) ++ rest =
              Char.ofNat 123 :: (dumpsFields ((k, v) :: fs') ++ Char.ofNat 125 :: rest) := by
            rw [dumpsV]
            simp [List.append_assoc]
          have hskip : skipWs (pre ++ (dumpsV (J.obj ((k, v) :: fs')) ++ rest)) =
              Char.ofNat 123 :: (dumpsFields ((k, v) :: fs') ++ Char.ofNat 125 :: rest) := by
            rw [skipWs_append_wsOnly pre _ hpre, hflat, skipWs_cons_false _ _ (by decide)]
          rw [parseValueF_objB fuel _ _ hskip]
          have htail : dumpsFields ((k, v) :: fs') ++ Char.ofNat 125 :: rest =
              '"' :: (t ++ Char.ofNat 125 :: rest) := by
            rw [hft]
            rfl
          rw [htail, skipWs_cons_false _ _ (by decide)]
          dsimp only
          rw [if_neg (by decide : ¬('"' : Char) = Char.ofNat 125), ← htail]
          have hlen2 : (dumpsFields ((k, v) :: fs')).length + 1 < fuel := by
            have : (dumpsV (J.obj ((k, v) :: fs'))).length =
                (dumpsFields ((k, v) :: fs')).length + 2 := by
              rw [dumpsV]
              simp
            omega
          have hfl := ihF ((k, v) :: fs') [] rest wsOnly_nil (by simp) hlen2
          rw [List.nil_append] at hfl
          rw [hfl]
    · intro xs pre rest hpre hne hlen
      cases xs with
      | nil => exact absurd rfl hne
      | cons x xs' =>
        rw [parseElemsF_succ]
        cases xs' with
        | nil =>
          rw [show dumpsElems [x] = dumpsV x from rfl]
          have hlen1 : (dumpsV x).length < fuel := by
            have : (dumpsElems [x]).length = (dumpsV x).length := rfl
            omega
          rw [ihV x pre (']' :: rest) hpre
            (show numSafe (']' :: rest) from ⟨by decide, by decide, by decide, by decide⟩)
            hlen1]
          dsimp only
          rw [skipWs_cons_false _ _ (by decide)]
          rfl
        | cons y ys =>
          have hflat : dumpsElems (x :: y :: ys) ++ ']' :: rest =
              dumpsV x ++ (',' :: ' ' :: (dumpsElems (y :: ys) ++ ']' :: rest)) := by
            rw [show dumpsElems (x :: y :: ys) =
              dumpsV x ++ ',' :: ' ' :: dumpsElems (y :: ys) from rfl]
            simp [List.append_assoc]
          rw [hflat]
          have hlstruct : (dumpsElems (x :: y :: ys)).length =
              (dumpsV x).length + 2 + (dumpsElems (y :: ys)).length := by
            rw [show dumpsElems (x :: y :: ys) =
              dumpsV x ++ ',' :: ' ' :: dumpsElems (y :: ys) from rfl]
            simp
            omega
          rw [ihV x pre (',' :: ' ' :: (dumpsElems (y :: ys) ++ ']' :: rest)) hpre
            (show numSafe (',' :: ' ' :: (dumpsElems (y :: ys) ++ ']' :: rest)) from
              ⟨by decide, by decide, by decide, by decide⟩)
            (by omega)]
          dsimp only
          rw [skipWs_cons_false _ _ (by decide)]
          dsimp only
          rw [if_pos rfl]
          have hel := ihE (y :: ys) [' '] rest wsOnly_space (by simp) (by omega)
          rw [show [' '] ++ (dumpsElems (y :: ys) ++ ']' :: rest) =
            ' ' :: (dumpsElems (y :: ys) ++ ']' :: rest) from rfl] at hel
          rw [hel]
    · intro fs pre rest hpre hne hlen
      cases fs with
      | nil => exact absurd rfl hne
      | cons f fs' =>
        obtain ⟨k, v⟩ := f
        cases fs' with
        | nil =>
          have hflat : pre ++ (dumpsFields [(k, v)] ++ Char.ofNat 125 :: rest) =
              pre ++ ('"' :: (escapeString k ++ '"' ::
                (':' :: ' ' :: (dumpsV v ++ Char.ofNat 125 :: rest)))) := by
            rw [show dumpsFields [(k, v)] =
              '"' :: escapeString k ++ '"' :: ':' :: ' ' :: dumpsV v from rfl]
            simp [List.append_assoc]
          rw [hflat]
          have hskip : skipWs (pre ++ ('"' :: (escapeString k ++ '"' ::
              (':' :: ' ' :: (dumpsV v ++ Char.ofNat 125 :: rest))))) =
              '"' :: (escapeString k ++ '"' ::
                (':' :: ' ' :: (dumpsV v ++ Char.ofNat 125 :: rest))) := by
            rw [skipWs_append_wsOnly pre _ hpre, skipWs_cons_false _ _ (by decide)]
          rw [parseFieldsF_start fuel _ _ hskip,
            parseStrF_escape _ k (':' :: ' ' :: (dumpsV v ++ Char.ofNat 125 :: rest))
              (by simp; omega)]
          dsimp only
          rw [skipWs_cons_false _ _ (by decide)]
          dsimp only
          rw [if_pos rfl]
          have hlen1 : (dumpsV v).length < fuel := by
            have : (dumpsFields [(k, v)]).length =
                (escapeString k).length + (dumpsV v).length + 4 := by
              rw [show dumpsFields [(k, v)] =
                '"' :: escapeString k ++ '"' :: ':' :: ' ' :: dumpsV v from rfl]
              simp
              omega
            omega
          have hv := ihV v [' '] (Char.ofNat 125 :: rest) wsOnly_space
            (show numSafe (Char.ofNat 125 :: rest) from
              ⟨by decide, by decide, by decide, by decide⟩) hlen1
          rw [show [' '] ++ (dumpsV v ++ Char.ofNat 125 :: rest) =
            ' ' :: (dumpsV v ++ Char.ofNat 125 :: rest) from rfl] at hv
          rw [hv]
          dsimp only
          rw [skipWs_cons_false _ _ (by decide)]
          rfl
        | cons g gs =>
          have hflat : pre ++ (dumpsFields ((k, v) :: g :: gs) ++ Char.ofNat 125 :: rest) =
              pre ++ ('"' :: (escapeString k ++ '"' ::
                (':' :: ' ' :: (dumpsV v ++ ',' :: ' ' ::
                  (dumpsFields (g :: gs) ++ Char.ofNat 125 :: rest))))) := by
            rw [show dumpsFields ((k, v) :: g :: gs) =
              ('"' :: escapeString k ++ '"' :: ':' :: ' ' :: dumpsV v) ++
                ',' :: ' ' :: dumpsFields (g :: gs) from rfl]
            simp [List.append_assoc]
          rw [hflat]
          have hskip : skipWs (pre ++ ('"' :: (escapeString k ++ '"' ::
              (':' :: ' ' :: (dumpsV v ++ ',' :: ' ' ::
                (dumpsFields (g :: gs) ++ Char.ofNat 125 :: rest)))))) =
              '"' :: (escapeString k ++ '"' ::
                (':' :: ' ' :: (dumpsV v ++ ',' :: ' ' ::
                  (dumpsFields (g :: gs) ++ Char.ofNat 125 :: rest)))) := by
            rw [skipWs_append_wsOnly pre _ hpre, skipWs_cons_false _ _ (by decide)]
          rw [parseFieldsF_start fuel _ _ hskip,
            parseStrF_escape _ k (':' :: ' ' :: (dumpsV v ++ ',' :: ' ' ::
              (dumpsFields (g :: gs) ++ Char.ofNat 125 :: rest))) (by simp; omega)]
          dsimp only
          rw [skipWs_cons_false _ _ (by decide)]
          dsimp only
          rw [if_pos rfl]
          have hlstruct : (dumpsFields ((k, v) :: g :: gs)).length =
              (escapeString k).length + (dumpsV v).length + 6 +
                (dumpsFields (g :: gs)).length := by
            rw [show dumpsFields ((k, v) :: g :: gs) =
              ('"' :: escapeString k ++ '"' :: ':' :: ' ' :: dumpsV v) ++
                ',' :: ' ' :: dumpsFields (g :: gs) from rfl]
            simp
            omega
          have hv := ihV v [' '] (',' :: ' ' ::
              (dumpsFields (g :: gs) ++ Char.ofNat 125 :: rest)) wsOnly_space
            (show numSafe (',' :: ' ' ::
              (dumpsFields (g :: gs) ++ Char.ofNat 125 :: rest)) from
              ⟨by decide, by decide, by decide, by decide⟩) (by omega)
          rw [show [' '] ++ (dumpsV v ++ ',' :: ' ' ::
              (dumpsFields (g :: gs) ++ Char.ofNat 125 :: rest)) =
            ' ' :: (dumpsV v ++ ',' :: ' ' ::
              (dumpsFields (g :: gs) ++ Char.ofNat 125 :: rest)) from rfl] at hv
          rw [hv]
          dsimp only
          rw [skipWs_cons_false _ _ (by decide)]
          dsimp only
          rw [if_pos rfl]
          have hfl := ihF (g :: gs) [' '] rest wsOnly_space (by simp) (by omega)
          rw [show [' '] ++ (dumpsFields (g :: gs) ++ Char.ofNat 125 :: rest) =
            ' ' :: (dumpsFields (g :: gs) ++ Char.ofNat 125 :: rest) from rfl] at hfl
          rw [hfl]

/-- Round-trip of the JSON model: parsing the rendering of any value of the
modelled subset returns the value. -/
theorem jsonParse_dumpsV (m : J) : jsonParse (dumpsV m) = .ok m := by
  rw [jsonParse]
  have hv := (parse_dumps_all ((dumpsV m).length + 1)).1 m [] []
    wsOnly_nil trivial (by omega)
  rw [List.nil_append, List.append_nil] at hv
  rw [hv]
  rfl


/-! ## LSP `Content-Length` framing

Model of `RealTimeAnalysis._send_message` (encoding side) and
`RealTimeAnalysis._read_content_length` / `_read_pylsp_response` (decoding
side), identical in `real_time_analysis_microservice/main.py` and
`lsp_server/RT_linter.py`.  Streams are `List Char`; a stream that has been
closed by the worker is the empty remainder, on which a read returns
nothing, exactly as `process.stdout.readline()`/`read()` return `b""`
at end of file. -/

/-- Python exceptions that can arise on these code paths. -/
inductive PyErr where
  | framingErr : PyErr
  | valueErr : PyErr
  | attrErr : PyErr
  | keyErr : PyErr
  | runtimeErr : PyErr
  deriving DecidableEq

/-- Model of `stdout.readline()`: everything up to and including the next
newline, or the whole remainder if the stream ends first; `([], s)` only at
end of stream (Python returns `b""`). -/
def readLine : List Char → List Char × List Char
  | [] => ([], [])
  | c :: r =>
    if c = '\n' then ([c], r)
    else
      let p := readLine r
      (c :: p.1, p.2)

/-- Model of `stdout.read(n)`: at most `n` bytes, fewer if the stream ends
first; a negative `n` reads the whole remainder (Python semantics). -/
def readN (n : Int) (s : List Char) : List Char × List Char :=
  if n < 0 then (s, []) else (s.take n.toNat, s.drop n.toNat)

/-- Whether a character is not a colon (used to model `split(":", 1)`). -/
def notColon (c : Char) : Bool := !(c = ':')

/-- Model of `line.split(":", 1)[1]`: everything after the first colon. -/
def afterColon (l : List Char) : List Char := (l.dropWhile notColon).drop 1

/-- The lower-case header name tested with `line.lower().startswith(...)`. -/
def contentLengthHeader : List Char := "content-length:".toList

/-- Digit run forming the body of Python's `int()` on an already-stripped
string.  Underscore digit separators, which Python also accepts, are not
modelled; they cannot occur in this service's traffic. -/
def pyIntNat (l : List Char) : Option Nat :=
  if l ≠ [] ∧ l.all isDigitC then some (digitsToNat l) else none

/-- Model of Python's `int(text)` for stripped text: optional sign and
decimal digits, failure (a `ValueError`) otherwise. -/
def pyInt (l : List Char) : Option Int :=
  match l with
  | [] => none
  | c :: rest =>
    if c = '+' then (pyIntNat rest).map Int.ofNat
    else if c = '-' then (pyIntNat rest).map (fun n => -(n : Int))
    else (pyIntNat (c :: rest)).map Int.ofNat

/-- The inner loop of `_read_content_length`: after a `Content-Length` header
was parsed, consume lines until an empty line or end of stream. -/
def skipHeaderLinesF : Nat → List Char → List Char
  | 0, s => s
  | fuel + 1, s =>
    let p := readLine s
    if p.1 = [] ∨ p.1 = ['\r', '\n'] ∨ p.1 = ['\n'] then p.2
    else skipHeaderLinesF fuel p.2

/-- Wrapper running the inner skip loop with enough fuel for any input. -/
def skipHeaderLines (s : List Char) : List Char := skipHeaderLinesF (s.length + 1) s

/-- Model of `RealTimeAnalysis._read_content_length`: read lines until one
carries a case-insensitive `content-length:` header with a parseable value,
skip the remaining header lines, and return the value; raise
`RuntimeError` (`PyErr.framingErr`) if the stream closes first.  Lines whose
value does not parse are skipped, as the source's `except`/`continue` does.
Any `fuel > length` suffices; fuel exhaustion (unreachable then) errs. -/
def readContentLengthF : Nat → List Char → Except PyErr (Int × List Char)
  | 0, _ => .error .framingErr
  | fuel + 1, s =>
    let p := readLine s
    if p.1 = [] then .error .framingErr
    else
      let stripped := pyStrip p.1
      if stripped = [] then readContentLengthF fuel p.2
      else if contentLengthHeader.isPrefixOf (lowerList stripped) then
        match pyInt (pyStrip (afterColon stripped)) with
        | some n => .ok (n, skipHeaderLines p.2)
        | none => readContentLengthF fuel p.2
      else readContentLengthF fuel p.2

/-- Wrapper running `_read_content_length` with enough fuel for any input. -/
def readContentLength (s : List Char) : Except PyErr (Int × List Char) :=
  readContentLengthF (s.length + 1) s

/-- Model of the header written by `_send_message`:
`f"Content-Length: {len(body)}\r\n\r\n"`. -/
def headerFor (n : Nat) : List Char :=
  "Content-Length: ".toList ++ natDigits n ++ ['\r', '\n', '\r', '\n']

/-- Model of the bytes `_send_message` writes for a message: the header
followed by the UTF-8 JSON body (ASCII here, see the module comment). -/
def encodeMessage (m : J) : List Char := headerFor (dumpsV m).length ++ dumpsV m

/-- One-message decode: find the `Content-Length` header, read exactly that
many bytes, parse them as JSON — the read path of `_read_pylsp_response`
without its skip-and-retry loop. -/
def decodeMessage (s : List Char) : Except PyErr (J × List Char) :=
  match readContentLength s with
  | .error e => .error e
  | .ok (n, s1) =>
    match jsonParse (readN n s1).1 with
    | .error _ => .error .valueErr
    | .ok m => .ok (m, (readN n s1).2)

/-- First-match association lookup on a JSON object, modelling `dict.get`
(keys are unique in the JSON this service exchanges). -/
def jLookup : List (List Char × J) → List Char → Option J
  | [], _ => none
  | (k, v) :: fs, key => if k = key then some v else jLookup fs key

/-- Model of `msg.get("method") == "textDocument/publishDiagnostics"`:
an `AttributeError` when the message is not an object. -/
def isMethodPubDiag (m : J) : Except PyErr Bool :=
  match m with
  | .obj fs =>
    .ok (match jLookup fs "method".toList with
      | some (J.str s) => decide (s = "textDocument/publishDiagnostics".toList)
      | _ => false)
  | _ => .error .attrErr

/-- Model of `msg["params"].get("diagnostics", [])`: `KeyError` when
`params` is absent, `AttributeError` when it is not an object. -/
def getDiagnostics (m : J) : Except PyErr J :=
  match m with
  | .obj fs =>
    match jLookup fs "params".toList with
    | none => .error .keyErr
    | some (J.obj pfs) => .ok ((jLookup pfs "diagnostics".toList).getD (J.arr []))
    | some _ => .error .attrErr
  | _ => .error .attrErr

/-- Model of `RealTimeAnalysis._read_pylsp_response`: loop decoding frames,
skipping zero-length frames, unparseable bodies and messages that are not
`textDocument/publishDiagnostics` notifications, and return the
`diagnostics` array of the first such notification together with the
unconsumed remainder of the stream.  Any `fuel > length` suffices; fuel
exhaustion (unreachable then) reports the stream closed. -/
def readPylspResponseF : Nat → List Char → Except PyErr (J × List Char)
  | 0, _ => .error .framingErr
  | fuel + 1, s =>
    match readContentLength s with
    | .error e => .error e
    | .ok (n, s1) =>
      if n = 0 then readPylspResponseF fuel s1
      else
        match jsonParse (readN n s1).1 with
        | .error _ => readPylspResponseF fuel (readN n s1).2
        | .ok msg =>
          match isMethodPubDiag msg with
          | .error e => .error e
          | .ok true =>
            match getDiagnostics msg with
            | .error e => .error e
            | .ok d => .ok (d, (readN n s1).2)
          | .ok false => readPylspResponseF fuel (readN n s1).2

/-- Wrapper running `_read_pylsp_response` with enough fuel for any input. -/
def readPylspResponse (s : List Char) : Except PyErr (J × List Char) :=
  readPylspResponseF (s.length + 1) s


/-! ## Framing lemmas -/

theorem readLine_no_nl (A B : List Char) (hA : ∀ c ∈ A, c ≠ '\n') :
    readLine (A ++ '\n' :: B) = (A ++ ['\n'], B) := by
  induction A with
  | nil => simp [readLine]
  | cons c cs ih =>
    have hc : c ≠ '\n' := hA c (by simp)
    rw [List.cons_append, readLine.eq_def]
    dsimp only
    rw [if_neg hc, ih fun d hd => hA d (by simp [hd])]
    rfl

theorem dropWhile_all_false (p : Char → Bool) (l : List Char)
    (h : ∀ c ∈ l, p c = false) : l.dropWhile p = l := by
  cases l with
  | nil => rfl
  | cons c cs => simp [List.dropWhile_cons, h c (by simp)]

theorem pyStrip_no_ws (l : List Char) (h : ∀ c ∈ l, isPyWs c = false) : pyStrip l = l := by
  rw [pyStrip, dropWhile_all_false _ _ h,
    dropWhile_all_false _ _ (fun c hc => h c (List.mem_reverse.mp hc)), List.reverse_reverse]

theorem pyStrip_cons_ws (c : Char) (l : List Char) (h : isPyWs c = true) :
    pyStrip (c :: l) = pyStrip l := by
  simp [pyStrip, List.dropWhile_cons, h]

theorem isPyWs_digit_false (c : Char) (h : isDigitC c = true) : isPyWs c = false := by
  have hb := isDigitC_bounds c h
  simp only [isPyWs, Bool.or_eq_false_iff, decide_eq_false_iff_not]
  refine ⟨⟨⟨⟨⟨?_, ?_⟩, ?_⟩, ?_⟩, ?_⟩, ?_⟩ <;>
    (intro hEq; rw [hEq] at hb; revert hb; decide)

theorem natDigits_no_pyws (n : Nat) : ∀ c ∈ natDigits n, isPyWs c = false := by
  intro c hc
  have := natDigits_all_digits n
  rw [List.all_eq_true] at this
  exact isPyWs_digit_false c (this c hc)

theorem pyStrip_header_line (n : Nat) :
    pyStrip ("Content-Length: ".toList ++ natDigits n ++ ['\r', '\n']) =
      "Content-Length: ".toList ++ natDigits n := by
  rw [pyStrip]
  rw [show ("Content-Length: ".toList ++ natDigits n ++ ['\r', '\n']) =
    'C' :: ("ontent-Length: ".toList ++ natDigits n ++ ['\r', '\n']) from by simp]
  rw [List.dropWhile_cons]
  rw [if_neg (by decide)]
  have hrev : ('C' :: ("ontent-Length: ".toList ++ natDigits n ++ ['\r', '\n'])).reverse =
      '\n' :: '\r' :: ((natDigits n).reverse ++ (" :htgneL-tnetnoC".toList)) := by
    simp
  rw [hrev]
  rw [List.dropWhile_cons, if_pos (by decide), List.dropWhile_cons, if_pos (by decide)]
  obtain ⟨d, ds, hds⟩ := List.exists_cons_of_ne_nil
    (show (natDigits n).reverse ≠ [] by simp [natDigits_ne_nil n])
  have hd_dig : isDigitC d = true := by
    have := natDigits_all_digits n
    rw [List.all_eq_true] at this
    exact this d (List.mem_reverse.mp (hds ▸ List.mem_cons_self d ds))
  rw [hds, List.cons_append, List.dropWhile_cons, if_neg (by simp [isPyWs_digit_false d hd_dig])]
  rw [← List.cons_append, ← hds]
  simp

theorem pyInt_natDigits (n : Nat) : pyInt (natDigits n) = some (n : Int) := by
  obtain ⟨d, ds, hds⟩ := List.exists_cons_of_ne_nil (natDigits_ne_nil n)
  have hd_dig : isDigitC d = true := by
    have := natDigits_all_digits n
    rw [hds] at this
    simp only [List.all_cons, Bool.and_eq_true] at this
    exact this.1
  have hb := isDigitC_bounds d hd_dig
  have hne : ∀ e : Char, ¬(48 ≤ e.toNat ∧ e.toNat ≤ 57) → d ≠ e := by
    intro e he hEq
    rw [hEq] at hb
    exact he hb
  rw [hds, pyInt, if_neg (hne _ (by decide)), if_neg (hne _ (by decide)), ← hds]
  rw [pyIntNat, if_pos ⟨natDigits_ne_nil n, natDigits_all_digits n⟩, digitsToNat_natDigits]
  rfl

theorem skipHeaderLines_sep (tail : List Char) :
    skipHeaderLines ('\r' :: '\n' :: tail) = tail := rfl

theorem afterColon_header (D : List Char) :
    afterColon ("Content-Length: ".toList ++ D) = ' ' :: D := rfl

theorem pyStrip_space_digits (n : Nat) : pyStrip (' ' :: natDigits n) = natDigits n := by
  rw [pyStrip_cons_ws _ _ (by decide), pyStrip_no_ws _ (natDigits_no_pyws n)]

theorem readContentLength_header (n : Nat) (tail : List Char) :
    readContentLength (headerFor n ++ tail) = .ok ((n : Int), tail) := by
  have hshape : headerFor n ++ tail =
      ("Content-Length: ".toList ++ natDigits n ++ ['\r']) ++ '\n' :: ('\r' :: '\n' :: tail) := by
    rw [headerFor]
    simp
  have hA : ∀ c ∈ "Content-Length: ".toList ++ natDigits n ++ ['\r'], c ≠ '\n' := by
    intro c hc
    rcases List.mem_append.mp hc with hc1 | hc2
    · rcases List.mem_append.mp hc1 with hc3 | hc4
      · have hall : ∀ x ∈ "Content-Length: ".toList, x ≠ '\n' := by decide
        exact hall c hc3
      · have := natDigits_no_pyws n c hc4
        intro hEq
        rw [hEq] at this
        exact absurd this (by decide)
    · simp only [List.mem_singleton] at hc2
      rw [hc2]
      decide
  have hline := readLine_no_nl _ ('\r' :: '\n' :: tail) hA
  rw [readContentLength, readContentLengthF, hshape, hline]
  have hlineflat : ("Content-Length: ".toList ++ natDigits n ++ ['\r']) ++ ['\n'] =
      "Content-Length: ".toList ++ natDigits n ++ ['\r', '\n'] := by
    simp
  dsimp only
  rw [if_neg (by simp), hlineflat, pyStrip_header_line n]
  rw [if_neg (by simp)]
  rw [if_pos ?hpre]
  case hpre =>
    show "content-length:".toList.isPrefixOf _ = true
    rw [List.isPrefixOf_iff_prefix, lowerList, List.map_append,
      show List.map lowerC "Content-Length: ".toList = "content-length: ".toList from rfl,
      show ("content-length: ".toList : List Char) = "content-length:".toList ++ [' ']
        from rfl, List.append_assoc]
    exact List.prefix_append _ _
  rw [afterColon_header (natDigits n), pyStrip_space_digits n, pyInt_natDigits n]
  rw [skipHeaderLines_sep tail]

theorem readN_exact (b rest : List Char) :
    readN ((b.length : Nat) : Int) (b ++ rest) = (b, rest) := by
  rw [readN, if_neg (by omega)]
  rw [show ((b.length : Nat) : Int).toNat = b.length from rfl]
  rw [List.take_left, List.drop_left]

/-- One-frame round-trip: decoding an encoded message yields the message and
leaves exactly the trailing stream. -/
theorem decodeMessage_encodeMessage_append (m : J) (rest : List Char) :
    decodeMessage (encodeMessage m ++ rest) = .ok (m, rest) := by
  rw [decodeMessage, encodeMessage, List.append_assoc, readContentLength_header _ _]
  dsimp only
  rw [readN_exact (dumpsV m) rest]
  dsimp only
  rw [jsonParse_dumpsV m]


/-! ## The pylsp worker pool

State of class `RealTimeAnalysis` and the observable actions of its methods.
The pool size `NUMBER_OF_PYLSP_PROCESSES` is the parameter `N` below
(`3` in `real_time_analysis_microservice/main.py`, `1` in
`lsp_server/RT_linter.py`).  A worker process is its pid, whether its stdin
pipe still accepts writes, and the byte stream its stdout will deliver. -/

structure Proc where
  pid : Nat
  stdinOk : Bool
  stdout : List Char
  deriving DecidableEq

/-- Observable side effects: spawning a `pylsp` subprocess, writing bytes to
a worker's stdin, terminating a worker. -/
inductive Action where
  | spawn : Nat → Action
  | write : Nat → List Char → Action
  | terminate : Nat → Action
  deriving DecidableEq

def Action.isSpawn : Action → Bool
  | .spawn _ => true
  | _ => false

/-- The mutable attributes of `RealTimeAnalysis`, plus `nextPid`, a model of
the operating system's assignment of fresh pids to spawned processes. -/
structure RTState where
  current_lsp_id : Nat
  message_id : Nat
  pylsp_pool : List Proc
  nextPid : Nat
  deriving DecidableEq

/-- Pool size of the deployed microservice (`main.py`). -/
def NUMBER_OF_PYLSP_PROCESSES : Nat := 3

/-- Model of `os.getpid()`, an arbitrary fixed process id. -/
def osPid : Nat := 1000

/-- Model of `_next_pylsp_process`: remember the counter, advance it modulo
`N`, and return the remembered slot.  Python would raise `IndexError` on an
index beyond the pool; the model totalises with a dummy worker, and every
theorem below supplies the in-range invariant instead. -/
def nextPylspProcess (N : Nat) (st : RTState) : Proc × RTState :=
  (st.pylsp_pool.getD st.current_lsp_id ⟨0, false, []⟩,
    { st with current_lsp_id := (st.current_lsp_id + 1) % N })

/-- Model of `_next_message_id`. -/
def nextMessageId (st : RTState) : Nat × RTState :=
  (st.message_id, { st with message_id := st.message_id + 1 })

/-- The `initialize` request of `_send_init_requests`. -/
def initializeMsg (mid : Nat) : J :=
  J.obj [("jsonrpc".toList, J.str "2.0".toList),
         ("id".toList, J.num mid),
         ("method".toList, J.str "initialize".toList),
         ("params".toList, J.obj [("processId".toList, J.num osPid),
                                  ("rootUri".toList, J.null),
                                  ("capabilities".toList, J.obj [])])]

/-- The `initialized` notification of `_send_init_requests`. -/
def initializedMsg : J :=
  J.obj [("jsonrpc".toList, J.str "2.0".toList),
         ("method".toList, J.str "initialized".toList),
         ("params".toList, J.obj [])]

/-- The `textDocument/didOpen` notification of `_send_analyse_request`. -/
def didOpenMsg (uri code : List Char) : J :=
  J.obj [("jsonrpc".toList, J.str "2.0".toList),
         ("method".toList, J.str "textDocument/didOpen".toList),
         ("params".toList, J.obj [("textDocument".toList,
           J.obj [("uri".toList, J.str uri),
                  ("languageId".toList, J.str "python".toList),
                  ("version".toList, J.num 1),
                  ("text".toList, J.str code)])])]

/-- The `textDocument/didSave` notification of `_send_analyse_request`
(constructed in both source files; transmitted only by the
`lsp_server/RT_linter.py` variant). -/
def didSaveMsg (uri code : List Char) : J :=
  J.obj [("jsonrpc".toList, J.str "2.0".toList),
         ("method".toList, J.str "textDocument/didSave".toList),
         ("params".toList, J.obj [("textDocument".toList,
           J.obj [("uri".toList, J.str uri),
                  ("languageId".toList, J.str "python".toList),
                  ("version".toList, J.num 1),
                  ("text".toList, J.str code)])])]

/-- Model of `_clear_variables`: empty the pool list (the processes
themselves receive no signal) and zero both counters. -/
def clearVariables (st : RTState) : RTState :=
  { st with pylsp_pool := [], message_id := 0, current_lsp_id := 0 }

/-- A freshly spawned `pylsp` worker: live pipes, nothing on stdout yet. -/
def freshProc (p : Nat) : Proc := ⟨p, true, []⟩

/-- Model of `_create_pylsp_processes`: spawn `N` subprocesses and append
them to the pool. -/
def createPylspProcesses (N : Nat) (st : RTState) : RTState × List Action :=
  ({ st with pylsp_pool := st.pylsp_pool ++ (List.range' st.nextPid N).map freshProc,
             nextPid := st.nextPid + N },
   (List.range' st.nextPid N).map Action.spawn)

/-- The bytes `_send_message` writes for message `m` to process `p`. -/
def writeAct (m : J) (p : Proc) : Action := .write p.pid (encodeMessage m)

/-- Model of `_send_init_requests`: one message id is consumed for the
`initialize` request, then both init messages go to every pool member in
order.  Freshly spawned processes have live stdin pipes, so the failure
branch of `_send_message` is unreachable here and the sends are plain
writes. -/
def sendInitRequests (st : RTState) : RTState × List Action :=
  let q := nextMessageId st
  (q.2, st.pylsp_pool.flatMap (fun p => [writeAct (initializeMsg q.1) p, writeAct initializedMsg p]))

/-- Model of `start_pylsp`: clear the state, spawn `N` fresh workers, send
the init handshake to each.  The previous pool members are only dropped
from the list; no terminate signal is sent to them. -/
def startPylsp (N : Nat) (st : RTState) : RTState × List Action :=
  let st1 := clearVariables st
  let c := createPylspProcesses N st1
  let i := sendInitRequests c.1
  (i.1, c.2 ++ i.2)

/-- Model of `_send_message`: on a live stdin pipe the framed bytes are
written; a raised write error is caught and answered by `start_pylsp()`
(the whole-pool restart), after which the method returns normally. -/
def sendMessage (N : Nat) (m : J) (p : Proc) (st : RTState) : RTState × List Action :=
  if p.stdinOk then (st, [writeAct m p]) else startPylsp N st

namespace Micro

/-- Model of `_send_analyse_request` in
`real_time_analysis_microservice/main.py`: select the next worker, send the
`didOpen` notification, read one diagnostics response from that worker's
stdout and return it.  The `didSave` request is constructed in the source
but never transmitted.  Returns the result, the state after the call and
the emitted actions. -/
def sendAnalyseRequest (N : Nat) (code uri : List Char) (st : RTState) :
    Except PyErr J × RTState × List Action :=
  let q := nextPylspProcess N st
  let w := sendMessage N (didOpenMsg uri code) q.1 q.2
  match readPylspResponse q.1.stdout with
  | .error e => (.error e, w.1, w.2)
  | .ok (d, _) => (.ok d, w.1, w.2)

/-- Model of `analyze` in `real_time_analysis_microservice/main.py`: empty
code short-circuits to `[]`; any exception from the request path is caught
and re-raised as `RuntimeError`. -/
def analyze (N : Nat) (code uri : List Char) (st : RTState) :
    Except PyErr J × RTState × List Action :=
  if code = [] then (.ok (J.arr []), st, [])
  else
    match sendAnalyseRequest N code uri st with
    | (.error _, st', acts) => (.error .runtimeErr, st', acts)
    | (.ok d, st', acts) => (.ok d, st', acts)

end Micro

namespace Linter

/-- Model of `_send_analyse_request` in `lsp_server/RT_linter.py`: select
the next worker, send `didOpen`, read one response, send `didSave`, read a
second response from the remaining stream, and return the first response. -/
def sendAnalyseRequest (N : Nat) (code uri : List Char) (st : RTState) :
    Except PyErr J × RTState × List Action :=
  let q := nextPylspProcess N st
  let w1 := sendMessage N (didOpenMsg uri code) q.1 q.2
  match readPylspResponse q.1.stdout with
  | .error e => (.error e, w1.1, w1.2)
  | .ok (d1, rest1) =>
    let w2 := sendMessage N (didSaveMsg uri code) q.1 w1.1
    match readPylspResponse rest1 with
    | .error e => (.error e, w2.1, w1.2 ++ w2.2)
    | .ok _ => (.ok d1, w2.1, w1.2 ++ w2.2)

end Linter

/-- Round-robin selection trace: the pool index used by each of `k`
successive `_next_pylsp_process` calls. -/
def selectTrace (N : Nat) : Nat → RTState → List Nat
  | 0, _ => []
  | k + 1, st => st.current_lsp_id :: selectTrace N k (nextPylspProcess N st).2


/-! ## Round-robin facts -/

theorem selectTrace_formula (N : Nat) (k : Nat) :
    ∀ st c, st.current_lsp_id = c → c < N →
      selectTrace N k st = (List.range k).map (fun i => (c + i) % N) := by
  induction k with
  | zero => intro st c _ _; rfl
  | succ k ih =>
    intro st c hc hcN
    have hN : 0 < N := by omega
    rw [selectTrace, ih (nextPylspProcess N st).2 ((c + 1) % N)
      (by simp [nextPylspProcess, hc]) (Nat.mod_lt _ hN)]
    rw [List.range_succ_eq_map, List.map_cons, List.map_map]
    rw [hc, show (c + 0) % N = c by rw [Nat.add_zero, Nat.mod_eq_of_lt hcN]]
    congr 1
    apply List.map_congr_left
    intro i _
    show ((c + 1) % N + i) % N = (c + (i + 1)) % N
    rw [Nat.mod_add_mod]
    congr 1
    omega

theorem count_range (j m : Nat) : (List.range m).count j = if j < m then 1 else 0 := by
  induction m with
  | zero => simp
  | succ m ih =>
    rw [List.range_succ, List.count_append, ih]
    by_cases h : j < m
    · rw [if_pos h, if_pos (by omega)]
      have hne : j ≠ m := by omega
      simp [List.count_singleton, hne]
    · by_cases h2 : j = m
      · subst h2
        simp [List.count_singleton]
      · rw [if_neg h, if_neg (by omega)]
        simp [List.count_singleton, h2]

theorem count_period (N c j : Nat) (hc : c < N) (hj : j < N) :
    ((List.range N).map (fun i => (c + i) % N)).count j = 1 := by
  have hN : 0 < N := by omega
  have hnodup : ((List.range N).map (fun i => (c + i) % N)).Nodup := by
    refine List.Nodup.map_on ?_ (List.nodup_range N)
    intro x hx y hy hxy
    rw [List.mem_range] at hx hy
    rcases Nat.le_total x y with hle | hle
    · have hmod : (c + x) % N = (c + y) % N := hxy
      have hdvd : N ∣ (c + y) - (c + x) :=
        (Nat.modEq_iff_dvd' (by omega)).mp hmod
      rw [show c + y - (c + x) = y - x by omega] at hdvd
      have := Nat.eq_zero_of_dvd_of_lt hdvd
      omega
    · have hmod : (c + y) % N = (c + x) % N := hxy.symm
      have hdvd : N ∣ (c + x) - (c + y) :=
        (Nat.modEq_iff_dvd' (by omega)).mp hmod
      rw [show c + x - (c + y) = x - y by omega] at hdvd
      have := Nat.eq_zero_of_dvd_of_lt hdvd
      omega
  have hmem : j ∈ (List.range N).map (fun i => (c + i) % N) := by
    refine List.mem_map.mpr ⟨(N + j - c) % N, List.mem_range.mpr (Nat.mod_lt _ hN), ?_⟩
    show (c + (N + j - c) % N) % N = j
    rw [Nat.add_mod, Nat.mod_mod_of_dvd _ (dvd_refl N), ← Nat.add_mod]
    rw [show c + (N + j - c) = N + j by omega, Nat.add_mod_left, Nat.mod_eq_of_lt hj]
  exact List.count_eq_one_of_mem hnodup hmem

theorem count_trace (N c j k : Nat) (hc : c < N) (hj : j < N) :
    ((List.range (N * k)).map (fun i => (c + i) % N)).count j = k := by
  induction k with
  | zero => simp
  | succ k ih =>
    have hsplit : List.range (N * (k + 1)) =
        List.range (N * k) ++ (List.range N).map (fun x => N * k + x) := by
      rw [show N * (k + 1) = N * k + N by ring]
      exact List.range_add _ _
    rw [hsplit, List.map_append, List.count_append, ih, List.map_map]
    have hcongr : ((List.range N).map ((fun i => (c + i) % N) ∘ fun x => N * k + x)) =
        (List.range N).map (fun i => (c + i) % N) := by
      apply List.map_congr_left
      intro i _
      show (c + (N * k + i)) % N = (c + i) % N
      rw [show c + (N * k + i) = c + i + k * N by ring, Nat.add_mul_mod_self_right]
    rw [hcongr, count_period N c j hc hj]

/-! ## Facts about `start_pylsp` -/

theorem startPylsp_eq (N : Nat) (st : RTState) :
    startPylsp N st =
      ({ current_lsp_id := 0, message_id := 1,
         pylsp_pool := (List.range' st.nextPid N).map freshProc,
         nextPid := st.nextPid + N },
       (List.range' st.nextPid N).map Action.spawn ++
         ((List.range' st.nextPid N).map freshProc).flatMap
           (fun p => [writeAct (initializeMsg 0) p, writeAct initializedMsg p])) := rfl

theorem startPylsp_no_terminate (N : Nat) (st : RTState) :
    ∀ w, Action.terminate w ∉ (startPylsp N st).2 := by
  intro w hmem
  rw [startPylsp_eq] at hmem
  simp only [List.mem_append, List.mem_map, List.mem_flatMap] at hmem
  rcases hmem with ⟨x, _, hx⟩ | ⟨p, _, hp⟩
  · exact Action.noConfusion hx
  · simp only [writeAct, List.mem_cons, List.mem_singleton] at hp
    rcases hp with hp | hp | hp
    · exact Action.noConfusion hp
    · exact Action.noConfusion hp
    · exact absurd hp (List.not_mem_nil _)

theorem startPylsp_spawn_count (N : Nat) (st : RTState) :
    ((startPylsp N st).2.filter Action.isSpawn).length = N := by
  rw [startPylsp_eq, List.filter_append]
  have h1 : ((List.range' st.nextPid N).map Action.spawn).filter Action.isSpawn =
      (List.range' st.nextPid N).map Action.spawn := by
    apply List.filter_eq_self.mpr
    intro a ha
    obtain ⟨x, _, rfl⟩ := List.mem_map.mp ha
    rfl
  have h2 : (((List.range' st.nextPid N).map freshProc).flatMap
      (fun p => [writeAct (initializeMsg 0) p, writeAct initializedMsg p])).filter
        Action.isSpawn = [] := by
    apply List.filter_eq_nil_iff.mpr
    intro a ha
    obtain ⟨p, _, hp⟩ := List.mem_flatMap.mp ha
    simp only [writeAct, List.mem_cons, List.mem_singleton] at hp
    rcases hp with rfl | rfl | hp
    · simp [Action.isSpawn]
    · simp [Action.isSpawn]
    · exact absurd hp (List.not_mem_nil _)
  rw [h1, h2, List.append_nil, List.length_map, List.length_range']


/-! ## Reading worker responses -/

/-- A frame arriving on a worker's stdout: either a well-formed JSON message
or raw bytes framed with a correct `Content-Length` header. -/
inductive Frame where
  | msg : J → Frame
  | raw : List Char → Frame

/-- The bytes of a frame on the wire. -/
def encodeFrame : Frame → List Char
  | .msg m => encodeMessage m
  | .raw b => headerFor b.length ++ b

/-- Frames that `_read_pylsp_response` silently discards: JSON-RPC messages
of any other type (objects whose `method` is not
`textDocument/publishDiagnostics`, such as request responses and logs) and
frames whose body is not parseable JSON. -/
def Frame.skippable : Frame → Prop
  | .msg m => isMethodPubDiag m = .ok false
  | .raw b => jsonParse b = .error ()

theorem readPylspResponseF_pub (fuel : Nat) (pub d : J) (srest : List Char)
    (hm : isMethodPubDiag pub = .ok true) (hd : getDiagnostics pub = .ok d) :
    readPylspResponseF (fuel + 1) (encodeMessage pub ++ srest) = .ok (d, srest) := by
  rw [readPylspResponseF, encodeMessage, List.append_assoc, readContentLength_header _ _]
  have hlen : 1 ≤ (dumpsV pub).length := dumpsV_length_pos pub
  dsimp only
  rw [if_neg (by omega)]
  rw [readN_exact (dumpsV pub) srest]
  dsimp only
  rw [jsonParse_dumpsV pub]
  dsimp only
  rw [hm]
  dsimp only
  rw [hd]

theorem readPylspResponseF_skip_msg (fuel : Nat) (m : J) (srest : List Char)
    (hm : isMethodPubDiag m = .ok false) :
    readPylspResponseF (fuel + 1) (encodeMessage m ++ srest) =
      readPylspResponseF fuel srest := by
  rw [readPylspResponseF, encodeMessage, List.append_assoc, readContentLength_header _ _]
  have hlen : 1 ≤ (dumpsV m).length := dumpsV_length_pos m
  dsimp only
  rw [if_neg (by omega)]
  rw [readN_exact (dumpsV m) srest]
  dsimp only
  rw [jsonParse_dumpsV m]
  dsimp only
  rw [hm]

theorem readPylspResponseF_skip_raw (fuel : Nat) (b : List Char) (srest : List Char)
    (hb : jsonParse b = .error ()) :
    readPylspResponseF (fuel + 1) ((headerFor b.length ++ b) ++ srest) =
      readPylspResponseF fuel srest := by
  rw [List.append_assoc, readPylspResponseF, readContentLength_header _ _]
  dsimp only
  by_cases hnil : b = []
  · subst hnil
    rw [if_pos (by simp), List.nil_append]
  · have hlen : 1 ≤ b.length := List.length_pos.mpr hnil
    rw [if_neg (by omega)]
    rw [readN_exact b srest]
    dsimp only
    rw [hb]

theorem encodeFrame_length_pos (f : Frame) : 1 ≤ (encodeFrame f).length := by
  cases f with
  | msg m =>
    have := dumpsV_length_pos m
    simp [encodeFrame, encodeMessage, headerFor]
  | raw b => simp [encodeFrame, headerFor]

theorem readPylspResponseF_frames (frames : List Frame) :
    ∀ fuel target d srest, (∀ f ∈ frames, f.skippable) →
      isMethodPubDiag target = .ok true → getDiagnostics target = .ok d →
      ((frames.map encodeFrame).flatten ++ (encodeMessage target ++ srest)).length < fuel →
      readPylspResponseF fuel ((frames.map encodeFrame).flatten ++
        (encodeMessage target ++ srest)) = .ok (d, srest) := by
  induction frames with
  | nil =>
    intro fuel target d srest _ hm hd hfuel
    match fuel, hfuel with
    | fuel + 1, _ =>
      rw [List.map_nil, List.flatten_nil, List.nil_append]
      exact readPylspResponseF_pub fuel target d srest hm hd
  | cons f fs ih =>
    intro fuel target d srest hskip hm hd hfuel
    match fuel, hfuel with
    | fuel + 1, hfuel =>
    rw [List.map_cons, List.flatten_cons, List.append_assoc]
    have hrest : ((fs.map encodeFrame).flatten ++ (encodeMessage target ++ srest)).length
        < fuel := by
      have h1 := encodeFrame_length_pos f
      simp only [List.map_cons, List.flatten_cons, List.length_append, List.append_assoc]
        at hfuel
      simp only [List.length_append]
      omega
    have hstep := ih fuel target d srest (fun g hg => hskip g (by simp [hg])) hm hd hrest
    cases f with
    | msg m =>
      have hsm : isMethodPubDiag m = .ok false := hskip (.msg m) (by simp)
      rw [show encodeFrame (Frame.msg m) = encodeMessage m from rfl,
        readPylspResponseF_skip_msg fuel m _ hsm, hstep]
    | raw b =>
      have hsb : jsonParse b = .error () := hskip (.raw b) (by simp)
      rw [show encodeFrame (Frame.raw b) = headerFor b.length ++ b from rfl,
        readPylspResponseF_skip_raw fuel b _ hsb, hstep]

/-- The looping reader returns the diagnostics of the first
`publishDiagnostics` notification, discarding every earlier skippable
frame, and leaves the remainder of the stream unread. -/
theorem readPylspResponse_frames (frames : List Frame) (target d : J) (srest : List Char)
    (hskip : ∀ f ∈ frames, f.skippable)
    (hm : isMethodPubDiag target = .ok true) (hd : getDiagnostics target = .ok d) :
    readPylspResponse ((frames.map encodeFrame).flatten ++
      (encodeMessage target ++ srest)) = .ok (d, srest) :=
  readPylspResponseF_frames frames _ target d srest hskip hm hd (by omega)

theorem readPylspResponse_pub (pub d : J) (srest : List Char)
    (hm : isMethodPubDiag pub = .ok true) (hd : getDiagnostics pub = .ok d) :
    readPylspResponse (encodeMessage pub ++ srest) = .ok (d, srest) := by
  have := readPylspResponse_frames [] pub d srest (by simp) hm hd
  rw [List.map_nil, List.flatten_nil, List.nil_append] at this
  exact this

theorem readPylspResponse_nil : readPylspResponse [] = .error .framingErr := rfl

theorem readContentLength_nil : readContentLength [] = .error .framingErr := rfl

theorem readPylspResponse_of_readContentLength_error (s : List Char) (e : PyErr)
    (h : readContentLength s = .error e) :
    readPylspResponse s = .error e := by
  rw [readPylspResponse, readPylspResponseF, h]

theorem readPylspResponse_short_body (s rest : List Char) (n : Int)
    (h : readContentLength s = .ok (n, rest)) (hshort : (rest.length : Int) < n)
    (hbad : jsonParse rest = .error ()) :
    readPylspResponse s = .error .framingErr := by
  have hs : s ≠ [] := by
    intro hnil
    rw [hnil, readContentLength_nil] at h
    exact Except.noConfusion h
  have hn : ¬(n = 0) := by omega
  have hread : readN n rest = (rest, []) := by
    rw [readN, if_neg (by omega)]
    have hle : rest.length ≤ n.toNat := by omega
    rw [List.take_of_length_le hle, List.drop_eq_nil_of_le hle]
  obtain ⟨c, t, rfl⟩ := List.exists_cons_of_ne_nil hs
  rw [readPylspResponse, show (c :: t).length + 1 = (t.length + 1) + 1 from rfl,
    readPylspResponseF, h]
  dsimp only
  rw [if_neg hn, hread]
  dsimp only
  rw [hbad]
  rw [readPylspResponseF, readContentLength_nil]


/-! ## Behaviour of `_send_analyse_request` and `analyze` -/

theorem micro_sendAnalyse_ok (N : Nat) (code uri : List Char) (st : RTState)
    (proc : Proc) (pub d : J) (r1 : List Char)
    (hsel : (nextPylspProcess N st).1 = proc) (hlive : proc.stdinOk = true)
    (hout : proc.stdout = encodeMessage pub ++ r1)
    (hm : isMethodPubDiag pub = .ok true) (hd : getDiagnostics pub = .ok d) :
    Micro.sendAnalyseRequest N code uri st =
      (.ok d, (nextPylspProcess N st).2, [writeAct (didOpenMsg uri code) proc]) := by
  simp only [Micro.sendAnalyseRequest, hsel]
  rw [hout, readPylspResponse_pub pub d r1 hm hd, sendMessage, if_pos hlive]

theorem linter_sendAnalyse_both (N : Nat) (code uri : List Char) (st : RTState)
    (proc : Proc) (pub1 pub2 d1 d2 : J) (r2 : List Char)
    (hsel : (nextPylspProcess N st).1 = proc) (hlive : proc.stdinOk = true)
    (hout : proc.stdout = encodeMessage pub1 ++ (encodeMessage pub2 ++ r2))
    (hm1 : isMethodPubDiag pub1 = .ok true) (hd1 : getDiagnostics pub1 = .ok d1)
    (hm2 : isMethodPubDiag pub2 = .ok true) (hd2 : getDiagnostics pub2 = .ok d2) :
    Linter.sendAnalyseRequest N code uri st =
      (.ok d1, (nextPylspProcess N st).2,
        [writeAct (didOpenMsg uri code) proc, writeAct (didSaveMsg uri code) proc]) := by
  simp only [Linter.sendAnalyseRequest, hsel]
  rw [hout, readPylspResponse_pub pub1 d1 _ hm1 hd1, sendMessage, if_pos hlive]
  dsimp only
  rw [readPylspResponse_pub pub2 d2 r2 hm2 hd2, sendMessage, if_pos hlive]
  rfl

theorem micro_analyze_stdout_closed (N : Nat) (code uri : List Char) (st : RTState)
    (proc : Proc) (hcode : code ≠ [])
    (hsel : (nextPylspProcess N st).1 = proc) (hlive : proc.stdinOk = true)
    (hout : proc.stdout = []) :
    Micro.analyze N code uri st =
      (.error .runtimeErr, (nextPylspProcess N st).2,
        [writeAct (didOpenMsg uri code) proc]) := by
  rw [Micro.analyze, if_neg hcode]
  simp only [Micro.sendAnalyseRequest, hsel]
  rw [hout, readPylspResponse_nil, sendMessage, if_pos hlive]

theorem micro_analyze_stdin_broken (N : Nat) (code uri : List Char) (st : RTState)
    (proc : Proc) (hcode : code ≠ [])
    (hsel : (nextPylspProcess N st).1 = proc) (hdead : proc.stdinOk = false)
    (hout : proc.stdout = []) :
    Micro.analyze N code uri st =
      (.error .runtimeErr, (startPylsp N (nextPylspProcess N st).2).1,
        (startPylsp N (nextPylspProcess N st).2).2) := by
  rw [Micro.analyze, if_neg hcode]
  simp only [Micro.sendAnalyseRequest, hsel]
  rw [hout, readPylspResponse_nil, sendMessage, if_neg (by rw [hdead]; exact Bool.false_ne_true)]


/-! ## The pylint adapter of the deep-analysis service

Model of the per-issue conversion in `run_all_linters`
(`syntactic_analyzis_microservice/analysis_runner.py`, pylint section):
pylint's 1-based line is converted to 0-based with `max(0, line - 1)` and a
content-based heuristic widens the end column beyond the `column + 1`
fallback. -/

/-- Python's `str.isalnum` on the ASCII inputs this path handles. -/
def isAlnumC (c : Char) : Bool :=
  (48 ≤ c.toNat && c.toNat ≤ 57) || (65 ≤ c.toNat && c.toNat ≤ 90) ||
    (97 ≤ c.toNat && c.toNat ≤ 122)

/-- Model of `line.rstrip('\n\r')`. -/
def rstripNl (l : List Char) : List Char :=
  (l.reverse.dropWhile (fun c => c = '\n' || c = '\r')).reverse

/-- Model of `haystack.find(needle)` returning an index or `-1`. -/
def strFindAux : List Char → List Char → Nat → Int
  | [], sub, idx => if sub.isPrefixOf ([] : List Char) then (idx : Int) else -1
  | c :: t, sub, idx =>
    if sub.isPrefixOf (c :: t) then (idx : Int) else strFindAux t sub (idx + 1)

def strFind (s sub : List Char) : Int := strFindAux s sub 0

/-- Model of `haystack.find(needle, start)`. -/
def strFindFrom (s sub : List Char) (start : Nat) : Int :=
  let r := strFindAux (s.drop start) sub 0
  if r < 0 then -1 else r + start

/-- Model of `needle in haystack` on strings (Python's `in` is equivalent to
`find >= 0`). -/
def strContains (s sub : List Char) : Bool := decide (0 ≤ strFind s sub)

/-- Model of `re.search(r"'([^']+)'", s)`: the first single-quote-delimited
non-empty group, scanning left to right. -/
def reQuoted : List Char → Option (List Char)
  | [] => none
  | c :: t =>
    if c = '\'' then
      let grp := t.takeWhile (fun d => !(d = '\''))
      if grp ≠ [] ∧ t.drop grp.length ≠ [] then some grp else reQuoted t
    else reQuoted t

/-- Position after advancing from `pos` while `p` holds, never beyond the
end of `l` — the `while end_pos < len(l) and p(l[end_pos])` loops. -/
def scanWhile (p : Char → Bool) (l : List Char) (pos : Nat) : Nat :=
  pos + ((l.drop pos).takeWhile p).length

/-- The string-literal scan of the generic branch: advance until the closing
quote, stepping over backslash escapes (which may run past the end of the
line, as the Python loop does). -/
def quoteScanAux (q : Char) : List Char → Nat → Nat
  | [], pos => pos
  | c :: t, pos =>
    if c = q then pos
    else if c = '\\' then
      match t with
      | [] => pos + 2
      | _ :: t2 => quoteScanAux q t2 (pos + 2)
    else quoteScanAux q t (pos + 1)

/-- One pylint issue as consumed by the adapter (`issue.get(...)` fields).
pylint emits non-negative columns, modelled as `Nat`; the line is kept as
`Int` to mirror the `max(0, line - 1)` clamp. -/
structure PylintIssue where
  ptype : List Char
  line : Int
  column : Nat
  message : List Char
  symbol : List Char

/-- The severity table `pylint_sev` with its `.get(type, 3)` default. -/
def pylint_sev (t : List Char) : Nat :=
  if t = "error".toList then 1
  else if t = "warning".toList then 2
  else if t = "refactor".toList then 3
  else if t = "convention".toList then 3
  else if t = "info".toList then 4
  else 3

/-- The emitted diagnostic fields relevant to range conversion. -/
structure DeepDiag where
  line : Int
  column : Nat
  endLine : Int
  endColumn : Nat
  severity : Nat
  deriving DecidableEq

/-- The `end_pos` heuristic: the `if/elif` chain of `run_all_linters`
operating on the lowered message and symbol. -/
def pylintEndPos (line_content message symbol : List Char) (col0 : Nat) : Nat :=
  if strContains message "import".toList || strContains symbol "unused-import".toList then
    match reQuoted message with
    | some import_name =>
      let name_pos := strFind line_content import_name
      if 0 ≤ name_pos then name_pos.toNat + import_name.length
      else
        let import_pos := strFind line_content "import".toList
        if 0 ≤ import_pos then
          let e1 := scanWhile (fun c => !(c = ' ' || c = '\t' || c = '\n'))
            line_content import_pos.toNat
          let e2 := scanWhile (fun c => c = ' ' || c = '\t') line_content e1
          scanWhile (fun c => isAlnumC c || c = '_' || c = '.') line_content e2
        else col0
    | none => col0
  else if strContains message "undefined".toList || strContains message "name".toList then
    match reQuoted message with
    | some var_name =>
      let var_pos := strFindFrom line_content var_name col0
      if 0 ≤ var_pos then var_pos.toNat + var_name.length
      else scanWhile (fun c => isAlnumC c || c = '_') line_content col0
    | none => scanWhile (fun c => isAlnumC c || c = '_') line_content col0
  else if strContains message "unused variable".toList then
    match reQuoted message with
    | some var_name =>
      let var_pos := strFind line_content var_name
      if 0 ≤ var_pos then var_pos.toNat + var_name.length
      else (pyStrip line_content).length
    | none => min (col0 + 20) (pyStrip line_content).length
  else if strContains message "function".toList || strContains message "method".toList then
    scanWhile (fun c => !(c = '(' || c = ' ' || c = '\t')) line_content col0
  else
    match line_content.getD col0 ' ' with
    | '"' =>
      let e := quoteScanAux '"' (line_content.drop (col0 + 1)) (col0 + 1)
      if e < line_content.length then e + 1 else e
    | '\'' =>
      let e := quoteScanAux '\'' (line_content.drop (col0 + 1)) (col0 + 1)
      if e < line_content.length then e + 1 else e
    | _ =>
      let e := scanWhile (fun c => isAlnumC c || c = '_') line_content col0
      if e ≤ col0 then min (col0 + 5) line_content.length else e

/-- The per-issue pylint conversion of `run_all_linters`: 1-based line to
0-based with clamping, `end_line` on the same line, and the end-column
heuristic guarded by the two range checks, falling back to `column + 1`. -/
def pylintAdapt (fileLines : List (List Char)) (issue : PylintIssue) : DeepDiag :=
  let sev := pylint_sev issue.ptype
  let line0 : Int := max 0 (issue.line - 1)
  let col0 := issue.column
  let end_col :=
    if line0 < (fileLines.length : Int) then
      let line_content := rstripNl (fileLines.getD line0.toNat [])
      let message := lowerList issue.message
      let symbol := lowerList issue.symbol
      if col0 < line_content.length then
        max (col0 + 1) (min (pylintEndPos line_content message symbol col0)
          line_content.length)
      else col0 + 1
    else col0 + 1
  { line := line0, column := col0, endLine := line0, endColumn := end_col, severity := sev }

theorem pylintAdapt_line (fileLines : List (List Char)) (issue : PylintIssue) :
    (pylintAdapt fileLines issue).line = max 0 (issue.line - 1) := rfl

theorem pylintAdapt_endLine (fileLines : List (List Char)) (issue : PylintIssue) :
    (pylintAdapt fileLines issue).endLine = (pylintAdapt fileLines issue).line := rfl

theorem pylintAdapt_endColumn_ge (fileLines : List (List Char)) (issue : PylintIssue) :
    issue.column + 1 ≤ (pylintAdapt fileLines issue).endColumn := by
  show issue.column + 1 ≤
    (if max 0 (issue.line - 1) < (fileLines.length : Int) then _ else _)
  split
  · split
    · exact le_max_left _ _
    · exact le_refl _
  · exact le_refl _

theorem pylintAdapt_endColumn_fallback (fileLines : List (List Char)) (issue : PylintIssue)
    (h : (fileLines.length : Int) ≤ max 0 (issue.line - 1) ∨
      (rstripNl (fileLines.getD (max 0 (issue.line - 1)).toNat [])).length ≤ issue.column) :
    (pylintAdapt fileLines issue).endColumn = issue.column + 1 := by
  show (if max 0 (issue.line - 1) < (fileLines.length : Int) then _ else _) = _
  rcases h with h | h
  · rw [if_neg (by omega)]
  · split
    · rw [if_neg (by omega)]
    · rfl


/-! ## The per-document diagnostic cache -/

/-- Modelled from the spec: the per-document Diagnostic Cache of §4.5 has no
implementation under `src/` (the cache/merge component the spec describes is
not part of the checked-in sources; only the producer services are).
Faithful to the spec's words: the cache stores the latest diagnostic list
per named source; `update` replaces one source's list atomically and leaves
other sources untouched; `merged` is the concatenation of the `"realtime"`
list then the `"deep"` list with no reordering and no deduplication. -/
structure DiagCache (α : Type) where
  entries : List (List Char × List α)

/-- Modelled from the spec: latest stored list for a source, `[]` if none. -/
def DiagCache.lookup {α : Type} : List (List Char × List α) → List Char → List α
  | [], _ => []
  | (k, v) :: es, source => if k = source then v else DiagCache.lookup es source

/-- Modelled from the spec: replace the stored list for one source. -/
def DiagCache.update {α : Type} (c : DiagCache α) (source : List Char) (ds : List α) :
    DiagCache α :=
  ⟨(source, ds) :: c.entries.filter (fun e => !(e.1 = source))⟩

/-- Modelled from the spec: concatenation in fixed source order, realtime
first, then deep; no deduplication. -/
def DiagCache.merged {α : Type} (c : DiagCache α) : List α :=
  DiagCache.lookup c.entries "realtime".toList ++ DiagCache.lookup c.entries "deep".toList

theorem merged_after_updates {α : Type} (c : DiagCache α) (R D : List α) :
    ((c.update "realtime".toList R).update "deep".toList D).merged = R ++ D := by
  rw [DiagCache.merged, DiagCache.update, DiagCache.update]
  dsimp only
  rw [DiagCache.lookup, if_neg (by decide), List.filter_cons,
    if_pos (by rfl), DiagCache.lookup, if_pos rfl,
    DiagCache.lookup, if_pos rfl]


/-! ## Concrete message values used by witnesses and counterexamples -/

/-- A `publishDiagnostics` notification carrying diagnostics `d`. -/
def pubDiagMsg (d : J) : J :=
  J.obj [("jsonrpc".toList, J.str "2.0".toList),
         ("method".toList, J.str "textDocument/publishDiagnostics".toList),
         ("params".toList, J.obj [("uri".toList, J.str "u".toList),
                                  ("diagnostics".toList, d)])]

/-- A JSON-RPC request response, a message the reader must skip. -/
def respMsg : J :=
  J.obj [("jsonrpc".toList, J.str "2.0".toList),
         ("id".toList, J.num 0),
         ("result".toList, J.null)]

/-! ## The claims -/

/-- C1 (counterexample): in the deployed microservice
(`real_time_analysis_microservice/main.py`), `_send_analyse_request` on
non-empty code sends exactly one message to the selected worker — only the
`didOpen` notification — not the two messages (`didOpen` then `didSave`)
the claim asserts: at this concrete input the action trace has length 1. -/
theorem C1_counterexample :
    ¬ ((Micro.sendAnalyseRequest 3 ['x'] ['u']
      ⟨0, 0, [⟨7, true, encodeMessage (pubDiagMsg (J.arr []))⟩], 10⟩).2.2.length = 2) := by
  decide

/-- C1 (amended): on non-empty code the pool selects the next worker by
round-robin; the deployed microservice sends exactly one message to it, the
`didOpen` notification with language id `"python"`, version 1 and the code
text, and returns the diagnostics of the worker's first
`publishDiagnostics` response; the older `lsp_server/RT_linter.py` variant
sends `didOpen` then `didSave`, reads one response per message, and returns
the first response's diagnostics. -/
theorem C1_amended (N : Nat) (code uri : List Char) (st : RTState) (proc : Proc)
    (pub1 pub2 d1 d2 : J) (r2 : List Char)
    (hsel : (nextPylspProcess N st).1 = proc) (hlive : proc.stdinOk = true)
    (hout : proc.stdout = encodeMessage pub1 ++ (encodeMessage pub2 ++ r2))
    (hm1 : isMethodPubDiag pub1 = .ok true) (hd1 : getDiagnostics pub1 = .ok d1)
    (hm2 : isMethodPubDiag pub2 = .ok true) (hd2 : getDiagnostics pub2 = .ok d2) :
    Micro.sendAnalyseRequest N code uri st =
      (.ok d1, (nextPylspProcess N st).2, [writeAct (didOpenMsg uri code) proc]) ∧
    Linter.sendAnalyseRequest N code uri st =
      (.ok d1, (nextPylspProcess N st).2,
        [writeAct (didOpenMsg uri code) proc, writeAct (didSaveMsg uri code) proc]) :=
  ⟨micro_sendAnalyse_ok N code uri st proc pub1 d1 (encodeMessage pub2 ++ r2)
      hsel hlive hout hm1 hd1,
    linter_sendAnalyse_both N code uri st proc pub1 pub2 d1 d2 r2
      hsel hlive hout hm1 hd1 hm2 hd2⟩

/-- C1 (witness): the amended statement at a concrete worker whose stdout
carries two `publishDiagnostics` notifications. -/
theorem C1_witness :
    (⟨7, true, encodeMessage (pubDiagMsg (J.arr [J.num 1])) ++
        (encodeMessage (pubDiagMsg (J.arr [J.num 2])) ++ [])⟩ : Proc).stdinOk = true ∧
    (Micro.sendAnalyseRequest 3 ['x'] ['u']
        ⟨0, 0, [⟨7, true, encodeMessage (pubDiagMsg (J.arr [J.num 1])) ++
          (encodeMessage (pubDiagMsg (J.arr [J.num 2])) ++ [])⟩], 10⟩ =
      (.ok (J.arr [J.num 1]),
        (nextPylspProcess 3 ⟨0, 0, [⟨7, true, encodeMessage (pubDiagMsg (J.arr [J.num 1])) ++
          (encodeMessage (pubDiagMsg (J.arr [J.num 2])) ++ [])⟩], 10⟩).2,
        [writeAct (didOpenMsg ['u'] ['x'])
          ⟨7, true, encodeMessage (pubDiagMsg (J.arr [J.num 1])) ++
            (encodeMessage (pubDiagMsg (J.arr [J.num 2])) ++ [])⟩]) ∧
      Linter.sendAnalyseRequest 3 ['x'] ['u']
        ⟨0, 0, [⟨7, true, encodeMessage (pubDiagMsg (J.arr [J.num 1])) ++
          (encodeMessage (pubDiagMsg (J.arr [J.num 2])) ++ [])⟩], 10⟩ =
      (.ok (J.arr [J.num 1]),
        (nextPylspProcess 3 ⟨0, 0, [⟨7, true, encodeMessage (pubDiagMsg (J.arr [J.num 1])) ++
          (encodeMessage (pubDiagMsg (J.arr [J.num 2])) ++ [])⟩], 10⟩).2,
        [writeAct (didOpenMsg ['u'] ['x'])
          ⟨7, true, encodeMessage (pubDiagMsg (J.arr [J.num 1])) ++
            (encodeMessage (pubDiagMsg (J.arr [J.num 2])) ++ [])⟩,
         writeAct (didSaveMsg ['u'] ['x'])
          ⟨7, true, encodeMessage (pubDiagMsg (J.arr [J.num 1])) ++
            (encodeMessage (pubDiagMsg (J.arr [J.num 2])) ++ [])⟩])) :=
  ⟨rfl, C1_amended 3 ['x'] ['u'] _ _ (pubDiagMsg (J.arr [J.num 1]))
    (pubDiagMsg (J.arr [J.num 2])) (J.arr [J.num 1]) (J.arr [J.num 2]) []
    rfl rfl rfl rfl rfl rfl rfl⟩

/-- C2 (counterexample): at a concrete input where the selected worker's
stdout closes during the read, `analyze` raises `RuntimeError` instead of
returning an empty diagnostic list, and the pool is not restarted (no
spawn action occurs), contradicting the claim on both points. -/
theorem C2_counterexample :
    (Micro.analyze 3 ['x'] ['u'] ⟨0, 0, [⟨7, true, []⟩], 10⟩).1 = .error .runtimeErr ∧
    ((Micro.analyze 3 ['x'] ['u'] ⟨0, 0, [⟨7, true, []⟩], 10⟩).2.2.filter
      Action.isSpawn) = [] :=
  ⟨rfl, rfl⟩

/-- C2 (amended): in the deployed microservice a transport-level failure
during `analyze` makes the call raise `RuntimeError` rather than return an
empty list; only a failed stdin write triggers the pool restart (the
in-flight call then fails reading the stale worker), while a stdout close
during the read raises without restarting the pool. -/
theorem C2_amended (N : Nat) (code uri : List Char) (st st' : RTState) (p q : Proc)
    (hcode : code ≠ [])
    (hsel1 : (nextPylspProcess N st).1 = p) (hdead : p.stdinOk = false)
    (hout1 : p.stdout = [])
    (hsel2 : (nextPylspProcess N st').1 = q) (hlive : q.stdinOk = true)
    (hout2 : q.stdout = []) :
    (Micro.analyze N code uri st =
        (.error .runtimeErr, (startPylsp N (nextPylspProcess N st).2).1,
          (startPylsp N (nextPylspProcess N st).2).2) ∧
      ((Micro.analyze N code uri st).2.2.filter Action.isSpawn).length = N) ∧
    (Micro.analyze N code uri st' =
        (.error .runtimeErr, (nextPylspProcess N st').2,
          [writeAct (didOpenMsg uri code) q]) ∧
      ((Micro.analyze N code uri st').2.2.filter Action.isSpawn).length = 0) := by
  have h1 := micro_analyze_stdin_broken N code uri st p hcode hsel1 hdead hout1
  have h2 := micro_analyze_stdout_closed N code uri st' q hcode hsel2 hlive hout2
  refine ⟨⟨h1, ?_⟩, ⟨h2, ?_⟩⟩
  · rw [h1]
    exact startPylsp_spawn_count N (nextPylspProcess N st).2
  · rw [h2]
    rfl

/-- C2 (witness): the amended statement at concrete dead-write and
dead-read workers. -/
theorem C2_witness :
    ((['x'] : List Char) ≠ []) ∧
    ((Micro.analyze 3 ['x'] ['u'] ⟨0, 0, [⟨7, false, []⟩], 10⟩ =
        (.error .runtimeErr,
          (startPylsp 3 (nextPylspProcess 3 ⟨0, 0, [⟨7, false, []⟩], 10⟩).2).1,
          (startPylsp 3 (nextPylspProcess 3 ⟨0, 0, [⟨7, false, []⟩], 10⟩).2).2) ∧
      ((Micro.analyze 3 ['x'] ['u'] ⟨0, 0, [⟨7, false, []⟩], 10⟩).2.2.filter
        Action.isSpawn).length = 3) ∧
    (Micro.analyze 3 ['x'] ['u'] ⟨0, 0, [⟨7, true, []⟩], 10⟩ =
        (.error .runtimeErr, (nextPylspProcess 3 ⟨0, 0, [⟨7, true, []⟩], 10⟩).2,
          [writeAct (didOpenMsg ['u'] ['x']) ⟨7, true, []⟩]) ∧
      ((Micro.analyze 3 ['x'] ['u'] ⟨0, 0, [⟨7, true, []⟩], 10⟩).2.2.filter
        Action.isSpawn).length = 0)) :=
  ⟨by decide, C2_amended 3 ['x'] ['u'] ⟨0, 0, [⟨7, false, []⟩], 10⟩
    ⟨0, 0, [⟨7, true, []⟩], 10⟩ ⟨7, false, []⟩ ⟨7, true, []⟩
    (by decide) rfl rfl rfl rfl rfl rfl⟩

/-- C3: framing round-trip — decoding the byte stream produced by encoding
any JSON-serializable message yields the message back: `_send_message`
prefixes the UTF-8 JSON body with `Content-Length: <n>` and two CRLFs, and
the decoder finds the case-insensitive header, skips the blank separator,
reads exactly `n` bytes and parses them as JSON. -/
theorem C3_framing_roundtrip (m : J) : decodeMessage (encodeMessage m) = .ok (m, []) := by
  have := decodeMessage_encodeMessage_append m []
  rw [List.append_nil] at this
  exact this

/-- C4: round-robin fairness — starting from any in-range counter value
`c`, `N*k` successive `_next_pylsp_process` selections use exactly the
indices `c, c+1, …` taken modulo `N` in cyclic order, and each of the `N`
slots is selected exactly `k` times; the selection index is the counter
value before each call. -/
theorem C4_round_robin (N k : Nat) (st : RTState) (c : Nat)
    (hc : st.current_lsp_id = c) (hcN : c < N) :
    selectTrace N (N * k) st = (List.range (N * k)).map (fun i => (c + i) % N) ∧
    ∀ j < N, (selectTrace N (N * k) st).count j = k := by
  have hf := selectTrace_formula N (N * k) st c hc hcN
  exact ⟨hf, fun j hj => by rw [hf]; exact count_trace N c j k hcN hj⟩

/-- C4 (witness): three workers, two full rounds from counter 1. -/
theorem C4_witness :
    (⟨1, 0, [], 0⟩ : RTState).current_lsp_id = 1 ∧ 1 < 3 ∧
    (selectTrace 3 (3 * 2) ⟨1, 0, [], 0⟩ =
        (List.range (3 * 2)).map (fun i => (1 + i) % 3) ∧
      ∀ j < 3, (selectTrace 3 (3 * 2) ⟨1, 0, [], 0⟩).count j = 2) :=
  ⟨rfl, by decide, C4_round_robin 3 2 ⟨1, 0, [], 0⟩ 1 rfl (by decide)⟩

/-- C5 (counterexample): `start_pylsp` never terminates the existing
workers — restarting a pool that holds worker pid 77 emits no terminate
action for it, contradicting the claim's "terminates all existing
workers". -/
theorem C5_counterexample :
    77 ∈ (⟨2, 5, [⟨77, true, []⟩], 100⟩ : RTState).pylsp_pool.map Proc.pid ∧
    Action.terminate 77 ∉ (startPylsp 3 ⟨2, 5, [⟨77, true, []⟩], 100⟩).2 := by
  constructor
  · decide
  · exact startPylsp_no_terminate 3 _ 77

/-- C5 (amended): `start_pylsp` drops the old workers from the pool without
terminating them (no terminate action is emitted), resets both counters to
zero (so the re-sent `initialize` request carries message id 0, leaving the
id counter at 1), spawns exactly `N` fresh workers so the pool again holds
`N`, and sends `initialize` followed by `initialized` to each fresh
worker in order. -/
theorem C5_amended (N : Nat) (st : RTState) :
    (startPylsp N st).1.pylsp_pool.length = N ∧
    (startPylsp N st).1.current_lsp_id = 0 ∧
    (startPylsp N st).1.message_id = 1 ∧
    (startPylsp N st).2 =
      (List.range' st.nextPid N).map Action.spawn ++
        ((List.range' st.nextPid N).map freshProc).flatMap
          (fun p => [writeAct (initializeMsg 0) p, writeAct initializedMsg p]) ∧
    ∀ w, Action.terminate w ∉ (startPylsp N st).2 := by
  refine ⟨?_, ?_, ?_, ?_, startPylsp_no_terminate N st⟩
  · rw [startPylsp_eq]
    simp [List.length_map, List.length_range']
  · rw [startPylsp_eq]
  · rw [startPylsp_eq]
  · rw [startPylsp_eq]

/-- C6: `_read_pylsp_response` returns the diagnostics array of the first
`textDocument/publishDiagnostics` notification in the stream; every earlier
message of another type (request responses, logs — objects whose method is
not `publishDiagnostics`) and every earlier frame whose body is not
parseable JSON is discarded and the loop keeps reading. -/
theorem C6_read_diagnostics (frames : List Frame) (target d : J) (rest : List Char)
    (hskip : ∀ f ∈ frames, f.skippable)
    (hm : isMethodPubDiag target = .ok true) (hd : getDiagnostics target = .ok d) :
    readPylspResponse ((frames.map encodeFrame).flatten ++
      (encodeMessage target ++ rest)) = .ok (d, rest) :=
  readPylspResponse_frames frames target d rest hskip hm hd

/-- C6 (witness): a request response and an unparseable frame are skipped
before the `publishDiagnostics` notification is returned. -/
theorem C6_witness :
    (∀ f ∈ [Frame.msg respMsg, Frame.raw "noise".toList], f.skippable) ∧
    readPylspResponse (([Frame.msg respMsg, Frame.raw "noise".toList].map
        encodeFrame).flatten ++ (encodeMessage (pubDiagMsg (J.arr [J.num 2])) ++ [])) =
      .ok (J.arr [J.num 2], []) := by
  have hskip : ∀ f ∈ [Frame.msg respMsg, Frame.raw "noise".toList], f.skippable := by
    intro f hf
    rcases List.mem_cons.mp hf with h | hf
    · rw [h]; exact rfl
    rcases List.mem_cons.mp hf with h | hf
    · rw [h]; exact rfl
    exact absurd hf (List.not_mem_nil f)
  exact ⟨hskip, C6_read_diagnostics [Frame.msg respMsg, Frame.raw "noise".toList]
    (pubDiagMsg (J.arr [J.num 2])) (J.arr [J.num 2]) [] hskip rfl rfl⟩

/-- C7 (counterexample): a stream whose header declares more bytes than
arrive before the close is not detected: the declared length exceeds the
remaining bytes, yet the decoder returns the truncated body as a message
because it parses as a complete `publishDiagnostics` notification. -/
theorem C7_counterexample :
    readContentLength (headerFor ((dumpsV (pubDiagMsg (J.arr []))).length + 27) ++
        dumpsV (pubDiagMsg (J.arr []))) =
      .ok ((((dumpsV (pubDiagMsg (J.arr []))).length + 27 : Nat) : Int),
        dumpsV (pubDiagMsg (J.arr []))) ∧
    (((dumpsV (pubDiagMsg (J.arr []))).length : Int) <
      (((dumpsV (pubDiagMsg (J.arr []))).length + 27 : Nat) : Int)) ∧
    readPylspResponse (headerFor ((dumpsV (pubDiagMsg (J.arr []))).length + 27) ++
        dumpsV (pubDiagMsg (J.arr []))) = .ok (J.arr [], []) :=
  ⟨readContentLength_header _ _, by omega, rfl⟩

/-- C7 (amended): if the stream closes before a complete `Content-Length`
header is read the decoder fails with the stream-closed error; if the
header declares `n` but the stream closes first, the truncation is detected
only through JSON parsing, so whenever the truncated body is not valid
JSON the decoder fails with the stream-closed `RuntimeError` rather than
returning a message. -/
theorem C7_amended (s s' : List Char) (e : PyErr) (n : Int) (rest : List Char)
    (h1 : readContentLength s = .error e)
    (h2 : readContentLength s' = .ok (n, rest))
    (h3 : (rest.length : Int) < n)
    (h4 : jsonParse rest = .error ()) :
    readPylspResponse s = .error e ∧ readPylspResponse s' = .error .framingErr :=
  ⟨readPylspResponse_of_readContentLength_error s e h1,
    readPylspResponse_short_body s' rest n h2 h3 h4⟩

/-- C7 (witness): the empty stream fails mid-header; a stream whose header
declares 5 bytes but delivers only the two bytes `ab` fails after the
JSON parse of the truncated body. -/
theorem C7_witness :
    readContentLength ([] : List Char) = .error .framingErr ∧
    readContentLength (headerFor 5 ++ "ab".toList) = .ok (5, "ab".toList) ∧
    (readPylspResponse ([] : List Char) = .error .framingErr ∧
      readPylspResponse (headerFor 5 ++ "ab".toList) = .error .framingErr) :=
  ⟨rfl, rfl, C7_amended [] (headerFor 5 ++ "ab".toList) .framingErr 5 "ab".toList
    rfl rfl (by decide) rfl⟩

/-- C8 (counterexample): for a pylint issue with message `Function` at
column 0 on the line `abc()`, the adapter widens the end column to 3, not
`column + 1 = 1` as the claim asserts. -/
theorem C8_counterexample :
    ¬ ((pylintAdapt ["abc()".toList]
      ⟨"error".toList, 1, 0, "Function".toList, []⟩).endColumn = 0 + 1) := by
  decide

/-- C8 (amended): the adapter emits `line = max 0 (L - 1)` (0-based) with
`endLine` on the same line; `endColumn` is at least `column + 1` and equals
`column + 1` exactly when the issue's line is outside the read file content
or its column is at or beyond the end of the line — otherwise a
content-based heuristic may widen it. -/
theorem C8_amended (fileLines : List (List Char)) (issue : PylintIssue) :
    (pylintAdapt fileLines issue).line = max 0 (issue.line - 1) ∧
    (pylintAdapt fileLines issue).endLine = (pylintAdapt fileLines issue).line ∧
    issue.column + 1 ≤ (pylintAdapt fileLines issue).endColumn ∧
    (((fileLines.length : Int) ≤ max 0 (issue.line - 1) ∨
      (rstripNl (fileLines.getD (max 0 (issue.line - 1)).toNat [])).length ≤ issue.column) →
      (pylintAdapt fileLines issue).endColumn = issue.column + 1) :=
  ⟨pylintAdapt_line fileLines issue, pylintAdapt_endLine fileLines issue,
    pylintAdapt_endColumn_ge fileLines issue,
    pylintAdapt_endColumn_fallback fileLines issue⟩

/-- C8 (witness): the amended statement at a concrete issue, with the
fallback condition discharged for an empty file. -/
theorem C8_witness :
    ((pylintAdapt [] ⟨"error".toList, 3, 2, "msg".toList, []⟩).line = max 0 (3 - 1) ∧
      (pylintAdapt [] ⟨"error".toList, 3, 2, "msg".toList, []⟩).endLine =
        (pylintAdapt [] ⟨"error".toList, 3, 2, "msg".toList, []⟩).line ∧
      2 + 1 ≤ (pylintAdapt [] ⟨"error".toList, 3, 2, "msg".toList, []⟩).endColumn) ∧
    (pylintAdapt [] ⟨"error".toList, 3, 2, "msg".toList, []⟩).endColumn = 2 + 1 :=
  ⟨⟨(C8_amended [] ⟨"error".toList, 3, 2, "msg".toList, []⟩).1,
    (C8_amended [] ⟨"error".toList, 3, 2, "msg".toList, []⟩).2.1,
    (C8_amended [] ⟨"error".toList, 3, 2, "msg".toList, []⟩).2.2.1⟩,
    (C8_amended [] ⟨"error".toList, 3, 2, "msg".toList, []⟩).2.2.2 (Or.inl (by decide))⟩

/-- C9: cache merge determinism — for a document whose cache holds
non-empty `realtime` list `R` and non-empty `deep` list `D`, the merged
list is exactly `R ++ D`: realtime first, then deep, no reordering, no
deduplication.  (The Diagnostic Cache is modelled from the spec, §4.5; no
implementation exists under `src/`.) -/
theorem C9_merge (α : Type) (c : DiagCache α) (R D : List α)
    (h1 : DiagCache.lookup c.entries "realtime".toList = R)
    (h2 : DiagCache.lookup c.entries "deep".toList = D)
    (hR : R ≠ []) (hD : D ≠ []) :
    c.merged = R ++ D := by
  rw [DiagCache.merged, h1, h2]

/-- C9 (witness): a concrete cache with one realtime and one deep entry. -/
theorem C9_witness :
    DiagCache.lookup ([("realtime".toList, [1]), ("deep".toList, [2])] :
        List (List Char × List Nat)) "realtime".toList = [1] ∧
    DiagCache.lookup ([("realtime".toList, [1]), ("deep".toList, [2])] :
        List (List Char × List Nat)) "deep".toList = [2] ∧
    ([1] : List Nat) ≠ [] ∧ ([2] : List Nat) ≠ [] ∧
    ((⟨[("realtime".toList, [1]), ("deep".toList, [2])]⟩ : DiagCache Nat)).merged =
      [1] ++ [2] :=
  ⟨rfl, rfl, by decide, by decide,
    C9_merge Nat ⟨[("realtime".toList, [1]), ("deep".toList, [2])]⟩ [1] [2]
      rfl rfl (by decide) (by decide)⟩

/-- C10: `analyze` with an empty code string returns the empty diagnostic
list immediately: no message is sent to any worker and the pool state
(round-robin counter, message id, worker pool) is unchanged. -/
theorem C10_empty_code (N : Nat) (uri : List Char) (st : RTState) :
    Micro.analyze N [] uri st = (.ok (J.arr []), st, []) := rfl


end DataSculptor
